import Mathlib

/-!
Verification of the `ar` archive codec (rust-ar).

Byte streams are modelled as `List Nat` (each element a byte value);
Unicode strings as `List Nat` of scalar values.  Fallible operations
return `Except ArError`.  All definitions are translated from
`src/lib.rs`; the generic `Read`/`Write` endpoints of the Rust code are
instantiated with in-memory byte lists (the same instantiation the
crate's own tests use), so a single `read` call delivers
`min requested available` bytes and a sink never fails.
-/

set_option maxHeartbeats 1000000

namespace ArLib

/-- The Unicode White_Space code points: the set trimmed by Rust's
`str::trim_right` (an alias of `trim_end`), used on the inline
identifier field and on every numeric field. -/
def isWhitespaceChar (c : Nat) : Bool :=
  (9 ≤ c && c ≤ 13) || c == 32 || c == 0x85 || c == 0xA0 || c == 0x1680 ||
  (0x2000 ≤ c && c ≤ 0x200A) || c == 0x2028 || c == 0x2029 || c == 0x202F ||
  c == 0x205F || c == 0x3000

/-- `str::trim_right`: remove trailing whitespace characters. -/
def trimRight (cs : List Nat) : List Nat :=
  (cs.reverse.dropWhile isWhitespaceChar).reverse

/-- The `while id_buffer.last() == Some(&0) { id_buffer.pop(); }` loop of
`Header::read`: remove trailing NUL bytes. -/
def stripTrailingZeros (l : List Nat) : List Nat :=
  (l.reverse.dropWhile (fun b => b == 0)).reverse

/-- Rust `char::to_digit(radix)` on an ASCII code point. -/
def toDigit (c radix : Nat) : Option Nat :=
  let d :=
    if 48 ≤ c && c ≤ 57 then some (c - 48)
    else if 97 ≤ c && c ≤ 122 then some (c - 87)
    else if 65 ≤ c && c ≤ 90 then some (c - 55)
    else none
  match d with
  | some v => if v < radix then some v else none
  | none => none

/-- One step of the `from_str_radix` accumulation: multiply by the
radix and add the next digit, failing on a non-digit or on u64
overflow. -/
def radixStep (radix : Nat) (acc : Option Nat) (c : Nat) : Option Nat :=
  match acc with
  | none => none
  | some a =>
    match toDigit c radix with
    | none => none
    | some d => if a * radix + d < 2 ^ 64 then some (a * radix + d) else none

/-- Rust `u64::from_str_radix`: an optional leading plus sign, then a
nonempty run of digits of the radix, accumulated left to right with a
u64 overflow check at each step. -/
def fromStrRadix (cs : List Nat) (radix : Nat) : Option Nat :=
  let ds := if cs.head? = some 43 then cs.tail else cs
  if ds = [] then none else ds.foldl (radixStep radix) (some 0)

/-- The numeric value of a big-endian digit list (proof-side companion
of the `from_str_radix` accumulation). -/
def parseVal (base : Nat) (ds : List Nat) : Nat :=
  ds.foldl (fun a d => a * base + d) 0

/-- A Unicode scalar value (what a Rust `char` may hold). -/
def validScalar (c : Nat) : Bool :=
  c < 0x110000 && !(0xD800 ≤ c && c < 0xE000)

/-- UTF-8 encoding of one scalar value. -/
def encodeChar (c : Nat) : List Nat :=
  if c < 0x80 then [c]
  else if c < 0x800 then [0xC0 + c / 0x40, 0x80 + c % 0x40]
  else if c < 0x10000 then
    [0xE0 + c / 0x1000, 0x80 + c / 0x40 % 0x40, 0x80 + c % 0x40]
  else
    [0xF0 + c / 0x40000, 0x80 + c / 0x1000 % 0x40, 0x80 + c / 0x40 % 0x40,
     0x80 + c % 0x40]

/-- UTF-8 encoding of a string of scalar values (`str::as_bytes`). -/
def utf8Encode : List Nat → List Nat
  | [] => []
  | c :: cs => encodeChar c ++ utf8Encode cs

/-- A UTF-8 continuation byte. -/
def contByte (b : Nat) : Bool := 0x80 ≤ b && b < 0xC0

/-- Decode one UTF-8 sequence from the front of a byte list, returning
the scalar value and the remaining bytes: rejects overlong forms,
surrogates, out-of-range scalars and truncated sequences, exactly as
std's UTF-8 validation table does. -/
def utf8DecodeOne : List Nat → Option (Nat × List Nat)
  | [] => none
  | b :: bs =>
    if b < 0x80 then some (b, bs)
    else if b < 0xC2 then none
    else if b < 0xE0 then
      match bs with
      | b1 :: bs2 =>
        if contByte b1 then some ((b - 0xC0) * 0x40 + (b1 - 0x80), bs2) else none
      | [] => none
    else if b < 0xF0 then
      match bs with
      | b1 :: b2 :: bs2 =>
        if (if b == 0xE0 then 0xA0 ≤ b1 && b1 < 0xC0
            else if b == 0xED then 0x80 ≤ b1 && b1 < 0xA0
            else contByte b1) && contByte b2 then
          some ((b - 0xE0) * 0x1000 + (b1 - 0x80) * 0x40 + (b2 - 0x80), bs2)
        else none
      | _ => none
    else if b < 0xF5 then
      match bs with
      | b1 :: b2 :: b3 :: bs2 =>
        if (if b == 0xF0 then 0x90 ≤ b1 && b1 < 0xC0
            else if b == 0xF4 then 0x80 ≤ b1 && b1 < 0x90
            else contByte b1) && contByte b2 && contByte b3 then
          some ((b - 0xF0) * 0x40000 + (b1 - 0x80) * 0x1000 +
                (b2 - 0x80) * 0x40 + (b3 - 0x80), bs2)
        else none
      | _ => none
    else none

/-- Iterate `utf8DecodeOne` with fuel; since each sequence consumes at
least one byte, fuel equal to the byte count never runs out. -/
def utf8DecodeAux : Nat → List Nat → Option (List Nat)
  | _, [] => some []
  | 0, _ :: _ => none
  | fuel + 1, b :: bs =>
    match utf8DecodeOne (b :: bs) with
    | none => none
    | some (c, rest) =>
      match utf8DecodeAux fuel rest with
      | some cs => some (c :: cs)
      | none => none

/-- Rust `str::from_utf8`, returning the decoded scalar values. -/
def utf8Decode (l : List Nat) : Option (List Nat) := utf8DecodeAux l.length l

/-- Big-endian digits of `n` in the given base, with enough fuel that the
fuel never runs out when it starts at `n` (structural recursion so that
concrete inputs evaluate inside the kernel). -/
def toDigitsAux (base : Nat) : Nat → Nat → List Nat
  | n, 0 => [n % base]
  | n, fuel + 1 => if n < base then [n] else toDigitsAux base (n / base) fuel ++ [n % base]

/-- The ASCII rendering of `n` in the given base, as produced by Rust's
`Display` (base 10) and `Octal` (base 8) formatting of an unsigned
integer. -/
def natChars (base n : Nat) : List Nat :=
  (toDigitsAux base n n).map (fun d => 48 + d)

/-- Rust format-string left justification `{:<w}`: pad on the right with
spaces up to width `w`, never truncating. -/
def fmtLeft (s : List Nat) (w : Nat) : List Nat :=
  s ++ List.replicate (w - s.length) 32

/-- The byte slice `l[i..j]`. -/
def slice (l : List Nat) (i j : Nat) : List Nat := (l.drop i).take (j - i)

instance {ε α : Type} [DecidableEq ε] [DecidableEq α] : DecidableEq (Except ε α) :=
  fun x y =>
    match x, y with
    | .ok a, .ok b =>
      if h : a = b then isTrue (by rw [h]) else
        isFalse (by intro he; injection he; contradiction)
    | .error a, .error b =>
      if h : a = b then isTrue (by rw [h]) else
        isFalse (by intro he; injection he; contradiction)
    | .ok a, .error b => isFalse (by intro he; injection he)
    | .error a, .ok b => isFalse (by intro he; injection he)

/-- The `std::io::ErrorKind` values the crate produces. -/
inductive ErrorKind where
  | unexpectedEof
  | invalidData
  deriving DecidableEq, Repr

/-- An `std::io::Error`: a kind plus its message (the numeric values
interpolated by `format!` in the source are omitted from the message;
no claim depends on them). -/
structure ArError where
  kind : ErrorKind
  msg : String
  deriving DecidableEq, Repr

/-- `GLOBAL_HEADER`, the 8-byte archive magic `!<arch>` followed by a
newline. -/
def GLOBAL_HEADER : List Nat := [33, 60, 97, 114, 99, 104, 62, 10]

/-- `Header`: identifier as Unicode scalar values (a Rust `String`), the
numeric fields as plain naturals (`u64`/`u32` values). -/
structure Header where
  identifier : List Nat
  mtime : Nat
  uid : Nat
  gid : Nat
  mode : Nat
  size : Nat
  deriving DecidableEq, Repr

/-- `parse_number`: UTF-8 decode the field, trim trailing whitespace,
parse in the given radix; any failure is the invalid-numeric-field
error. -/
def parse_number (bytes : List Nat) (radix : Nat) : Except ArError Nat :=
  match utf8Decode bytes with
  | some cs =>
    match fromStrRadix (trimRight cs) radix with
    | some v => Except.ok v
    | none => Except.error ⟨.invalidData, "Invalid numeric field in entry header"⟩
  | none => Except.error ⟨.invalidData, "Invalid numeric field in entry header"⟩

/-- `Header::read` on a byte-list source: returns `none` at clean EOF,
otherwise the decoded header and the remaining stream.  (On the error
paths the Rust reader's position is unobservable — the archive reader
transitions to finished — so the errors carry no stream.) -/
def Header.read (s : List Nat) : Except ArError (Option Header × List Nat) :=
  let buffer := s.take 60
  let rest := s.drop 60
  if s.length = 0 then Except.ok (none, rest)
  else if s.length < 60 then
    Except.error ⟨.unexpectedEof, "Unexpected EOF in the middle of archive entry header"⟩
  else
    match utf8Decode (slice buffer 0 16) with
    | none => Except.error ⟨.invalidData, "Non-UTF8 bytes in entry identifier"⟩
    | some idChars =>
      let identifier := trimRight idChars
      match parse_number (slice buffer 16 28) 10 with
      | .error e => Except.error e
      | .ok mtime =>
        match parse_number (slice buffer 28 34) 10 with
        | .error e => Except.error e
        | .ok uid0 =>
          let uid := uid0 % 2 ^ 32
          match parse_number (slice buffer 34 40) 10 with
          | .error e => Except.error e
          | .ok gid0 =>
            let gid := gid0 % 2 ^ 32
            match parse_number (slice buffer 40 48) 8 with
            | .error e => Except.error e
            | .ok mode0 =>
              let mode := mode0 % 2 ^ 32
              match parse_number (slice buffer 48 58) 10 with
              | .error e => Except.error e
              | .ok size =>
                if [35, 49, 47].isPrefixOf identifier then
                  match parse_number (slice buffer 3 16) 10 with
                  | .error e => Except.error e
                  | .ok padded_length =>
                    if size < padded_length then
                      Except.error ⟨.invalidData,
                        "Entry size smaller than extended entry identifier length"⟩
                    else
                      let id_buffer := rest.take padded_length
                      if rest.length < padded_length then
                        Except.error ⟨.unexpectedEof,
                          "Unexpected EOF in the middle of extended entry identifier"⟩
                      else
                        match utf8Decode (stripTrailingZeros id_buffer) with
                        | none => Except.error ⟨.invalidData,
                            "Non-UTF8 bytes in extended entry identifier"⟩
                        | some ident2 =>
                          Except.ok (some ⟨ident2, mtime, uid, gid, mode,
                            size - padded_length⟩, rest.drop padded_length)
                else
                  Except.ok (some ⟨identifier, mtime, uid, gid, mode, size⟩, rest)

/-- `Header::write` to an in-memory sink: the bytes emitted.  The only
failures of the Rust function are sink write errors, which the
in-memory sink never produces. -/
def Header.write (h : Header) : List Nat :=
  let idBytes := utf8Encode h.identifier
  if 16 < idBytes.length || h.identifier.contains 32 then
    let padding_length := (4 - idBytes.length % 4) % 4
    let padded_length := idBytes.length + padding_length
    [35, 49, 47] ++ fmtLeft (natChars 10 padded_length) 13 ++
      fmtLeft (natChars 10 h.mtime) 12 ++ fmtLeft (natChars 10 h.uid) 6 ++
      fmtLeft (natChars 10 h.gid) 6 ++ fmtLeft (natChars 8 h.mode) 8 ++
      fmtLeft (natChars 10 (h.size + padded_length)) 10 ++ [96, 10] ++
      idBytes ++ List.replicate padding_length 0
  else
    fmtLeft idBytes 16 ++ fmtLeft (natChars 10 h.mtime) 12 ++
      fmtLeft (natChars 10 h.uid) 6 ++ fmtLeft (natChars 10 h.gid) 6 ++
      fmtLeft (natChars 8 h.mode) 8 ++ fmtLeft (natChars 10 h.size) 10 ++ [96, 10]

/-- The branch condition of `Header::read` selecting the extended-name
form: the trimmed 16-byte identifier field starts with "#1/". -/
def usesExtMarker (s : List Nat) : Bool :=
  match utf8Decode (slice (s.take 60) 0 16) with
  | some cs => [35, 49, 47].isPrefixOf (trimRight cs)
  | none => false

/-- `Entry`: the decoded header together with the remaining `Take` limit
on the shared stream (`reader.by_ref().take(size)`). -/
structure Entry where
  header : Header
  limit : Nat
  deriving DecidableEq, Repr

/-- `Archive`: the shared stream plus the three state flags. -/
structure Archive where
  reader : List Nat
  started : Bool
  padding : Bool
  finished : Bool
  deriving DecidableEq, Repr

/-- `Archive::new`. -/
def Archive.new (reader : List Nat) : Archive :=
  ⟨reader, false, false, false⟩

/-- The `Header::read` call at the end of `Archive::next_entry` and the
handling of its three outcomes.  (After a decode error the Rust
reader's exact position is unobservable — the archive is finished — so
the stream is left as is.) -/
def Archive.readHeaderStep (a : Archive) : Archive × Option (Except ArError Entry) :=
  match Header.read a.reader with
  | .ok (some h, rest) =>
    ({ a with reader := rest,
              padding := if h.size % 2 ≠ 0 then true else a.padding },
     some (Except.ok ⟨h, h.size⟩))
  | .ok (none, rest) => ({ a with reader := rest, finished := true }, none)
  | .error e => ({ a with finished := true }, some (Except.error e))

/-- The `if self.padding` block of `Archive::next_entry`: consume and
check one inter-entry padding byte, then decode the next header. -/
def Archive.paddingStep (a : Archive) : Archive × Option (Except ArError Entry) :=
  if a.padding then
    if a.reader.length < 1 then
      ({ a with finished := true },
       some (Except.error ⟨.unexpectedEof, "failed to fill whole buffer"⟩))
    else if a.reader.take 1 ≠ [10] then
      ({ a with reader := a.reader.drop 1, finished := true },
       some (Except.error ⟨.invalidData, "Invalid padding byte"⟩))
    else
      Archive.readHeaderStep { a with reader := a.reader.drop 1, padding := false }
  else Archive.readHeaderStep a

/-- `Archive::next_entry`. -/
def Archive.next_entry (a : Archive) : Archive × Option (Except ArError Entry) :=
  if a.finished then (a, none)
  else if !a.started then
    if a.reader.length < 8 then
      ({ a with finished := true },
       some (Except.error ⟨.unexpectedEof, "failed to fill whole buffer"⟩))
    else if a.reader.take 8 ≠ GLOBAL_HEADER then
      ({ a with reader := a.reader.drop 8, finished := true },
       some (Except.error ⟨.invalidData, "Not an archive file (invalid global header)"⟩))
    else
      Archive.paddingStep { a with reader := a.reader.drop 8, started := true }
  else Archive.paddingStep a

/-- `<Entry as Read>::read` with a caller buffer of length `bufLen`,
over the stream `s` the entry's `Take` wraps: `io::Take` caps the
request at its limit, the inner byte-list reader delivers what is
available, and the limit shrinks by the bytes delivered. -/
def Entry.read (e : Entry) (bufLen : Nat) (s : List Nat) :
    List Nat × Entry × List Nat :=
  let max := Nat.min bufLen e.limit
  let got := s.take max
  (got, { e with limit := e.limit - got.length }, s.drop max)

/-- A sequence of caller reads against one entry: the concatenation of
all delivered bytes, the final entry state and the final stream. -/
def Entry.readMany : List Nat → Entry → List Nat → List Nat × Entry × List Nat
  | [], e, s => ([], e, s)
  | b :: bs, e, s =>
    let r := Entry.read e b s
    let r2 := Entry.readMany bs r.2.1 r.2.2
    (r.1 ++ r2.1, r2.2)

/-- `<Entry as Drop>::drop`: if the `Take` limit is positive, `io::copy`
drains the rest of the entry (consuming `limit` bytes, or everything if
the source runs out first) into a sink. -/
def Entry.dropRest (e : Entry) (s : List Nat) : List Nat :=
  if 0 < e.limit then s.drop e.limit else s

/-- `Builder`: bytes written so far, plus the started flag. -/
structure Builder where
  writer : List Nat
  started : Bool
  deriving DecidableEq, Repr

/-- `Builder::new`. -/
def Builder.new : Builder := ⟨[], false⟩

/-- `Builder::append` with the payload source given as the byte list
`io::copy` exhausts: write the magic on first use, write the header
record, copy the payload, fail if the copied count differs from the
declared size, otherwise pad odd payloads with one newline. -/
def Builder.append (b : Builder) (h : Header) (data : List Nat) :
    Builder × Except ArError Unit :=
  let w1 := if !b.started then b.writer ++ GLOBAL_HEADER else b.writer
  let w2 := w1 ++ Header.write h
  let w3 := w2 ++ data
  if data.length ≠ h.size then
    (⟨w3, true⟩, Except.error ⟨.invalidData, "Wrong file size"⟩)
  else if data.length % 2 ≠ 0 then (⟨w3 ++ [10], true⟩, Except.ok ())
  else (⟨w3, true⟩, Except.ok ())

/-! ### Digit rendering and numeric parsing -/

theorem foldl_mulAdd (base : Nat) (ds : List Nat) (a : Nat) :
    ds.foldl (fun x d => x * base + d) a = a * base ^ ds.length + parseVal base ds := by
  induction ds generalizing a with
  | nil => simp [parseVal]
  | cons d t ih =>
    simp only [List.foldl_cons, List.length_cons, parseVal]
    rw [ih (a * base + d)]
    conv_rhs => rw [show (List.foldl (fun x d => x * base + d) (0 * base + d) t : Nat) =
      (0 * base + d) * base ^ t.length + parseVal base t from ih (0 * base + d)]
    simp only [parseVal]
    ring

theorem toDigitsAux_spec (base : Nat) (hb : 2 ≤ base) :
    ∀ fuel n, n ≤ fuel →
      parseVal base (toDigitsAux base n fuel) = n ∧
      ∀ d ∈ toDigitsAux base n fuel, d < base := by
  intro fuel
  induction fuel with
  | zero =>
    intro n hn
    interval_cases n
    refine ⟨by simp [toDigitsAux, parseVal], ?_⟩
    intro d hd
    simp [toDigitsAux] at hd
    omega
  | succ fuel ih =>
    intro n hn
    by_cases h : n < base
    · refine ⟨by simp [toDigitsAux, h, parseVal], ?_⟩
      intro d hd
      simp [toDigitsAux, h] at hd
      omega
    · have hdiv : n / base ≤ fuel := by
        have : n / base < n := Nat.div_lt_self (by omega) (by omega)
        omega
      obtain ⟨ihv, ihm⟩ := ih (n / base) hdiv
      constructor
      · simp only [toDigitsAux, if_neg h, parseVal, List.foldl_append, List.foldl_cons,
          List.foldl_nil]
        have ihv2 : List.foldl (fun x d => x * base + d) 0
            (toDigitsAux base (n / base) fuel) = n / base := ihv
        rw [ihv2, Nat.mul_comm]
        exact Nat.div_add_mod n base
      · intro d hd
        simp only [toDigitsAux, if_neg h, List.mem_append, List.mem_singleton] at hd
        rcases hd with hd | hd
        · exact ihm d hd
        · subst hd; exact Nat.mod_lt n (by omega)

theorem toDigitsAux_ne_nil (base : Nat) (n fuel : Nat) :
    toDigitsAux base n fuel ≠ [] := by
  cases fuel with
  | zero => simp [toDigitsAux]
  | succ fuel =>
    by_cases h : n < base <;> simp [toDigitsAux, h]

theorem toDigitsAux_length (base : Nat) (hb : 2 ≤ base) :
    ∀ fuel n k, n ≤ fuel → n < base ^ k → 1 ≤ k →
      (toDigitsAux base n fuel).length ≤ k := by
  intro fuel
  induction fuel with
  | zero =>
    intro n k hn _ hk
    interval_cases n
    simpa [toDigitsAux] using hk
  | succ fuel ih =>
    intro n k hn hnk hk
    by_cases h : n < base
    · simpa [toDigitsAux, h] using hk
    · have hk2 : 2 ≤ k := by
        by_contra hlt
        have hk1 : k = 1 := by omega
        subst hk1
        simp at hnk
        omega
      have hdiv : n / base ≤ fuel := by
        have : n / base < n := Nat.div_lt_self (by omega) (by omega)
        omega
      have hdivk : n / base < base ^ (k - 1) := by
        rw [Nat.div_lt_iff_lt_mul (by omega)]
        calc n < base ^ k := hnk
        _ = base ^ (k - 1) * base := by
              rw [← Nat.pow_succ]
              congr 1
              omega
      have := ih (n / base) (k - 1) hdiv hdivk (by omega)
      simp only [toDigitsAux, if_neg h, List.length_append, List.length_cons,
        List.length_nil]
      omega

theorem natChars_length (base n k : Nat) (hb : 2 ≤ base) (hn : n < base ^ k)
    (hk : 1 ≤ k) : (natChars base n).length ≤ k := by
  simpa [natChars] using toDigitsAux_length base hb n n k (Nat.le_refl n) hn hk

theorem natChars_mem (base n : Nat) (hb : 2 ≤ base) (hb10 : base ≤ 10) :
    ∀ c ∈ natChars base n, 48 ≤ c ∧ c < 48 + base := by
  intro c hc
  simp only [natChars, List.mem_map] at hc
  obtain ⟨d, hd, rfl⟩ := hc
  have := (toDigitsAux_spec base hb n n (Nat.le_refl n)).2 d hd
  omega

theorem natChars_ne_nil (base n : Nat) : natChars base n ≠ [] := by
  simp [natChars, toDigitsAux_ne_nil]

theorem toDigit_of_digit (d radix : Nat) (h : d < radix) (h10 : radix ≤ 10) :
    toDigit (48 + d) radix = some d := by
  have hcond : (48 ≤ 48 + d && 48 + d ≤ 57) = true := by
    simp
    omega
  simp only [toDigit, hcond, if_true]
  have h48 : 48 + d - 48 = d := by omega
  rw [h48, if_pos h]

theorem radixStep_foldl (base : Nat) (hb10 : base ≤ 10) (ds : List Nat) :
    ∀ a, (∀ d ∈ ds, d < base) →
      a * base ^ ds.length + parseVal base ds < 2 ^ 64 →
      (ds.map (fun d => 48 + d)).foldl (radixStep base) (some a) =
        some (a * base ^ ds.length + parseVal base ds) := by
  induction ds with
  | nil => intro a _ _; simp [parseVal]
  | cons d t ih =>
    intro a hmem hbound
    have hd : d < base := hmem d (List.mem_cons_self d t)
    have hval : parseVal base (d :: t) = d * base ^ t.length + parseVal base t := by
      simp only [parseVal, List.foldl_cons]
      simpa using foldl_mulAdd base t d
    have hstep : a * base + d ≤ a * base ^ (d :: t).length + parseVal base (d :: t) := by
      rw [hval, List.length_cons, Nat.pow_succ]
      have h1 : a * base ≤ a * base * base ^ t.length :=
        Nat.le_mul_of_pos_right _ (Nat.pos_pow_of_pos _ (by omega))
      have h2 : d ≤ d * base ^ t.length :=
        Nat.le_mul_of_pos_right _ (Nat.pos_pow_of_pos _ (by omega))
      calc a * base + d ≤ a * base * base ^ t.length + d * base ^ t.length := by omega
      _ ≤ a * (base * base ^ t.length) + (d * base ^ t.length + parseVal base t) := by
            rw [← Nat.mul_assoc]; omega
      _ = a * (base ^ t.length * base) + (d * base ^ t.length + parseVal base t) := by
            ring_nf
    have hover : a * base + d < 2 ^ 64 := Nat.lt_of_le_of_lt hstep hbound
    have hrearrange :
        (a * base + d) * base ^ t.length + parseVal base t =
          a * base ^ (d :: t).length + parseVal base (d :: t) := by
      rw [hval, List.length_cons, Nat.pow_succ]
      ring
    simp only [List.map_cons, List.foldl_cons, radixStep,
      toDigit_of_digit d base hd hb10, if_pos hover]
    rw [ih (a * base + d) (fun x hx => hmem x (List.mem_cons_of_mem d hx))
      (by rw [hrearrange]; exact hbound)]
    rw [hrearrange]

theorem fromStrRadix_cons (c : Nat) (cs : List Nat) (radix : Nat) (hc : c ≠ 43) :
    fromStrRadix (c :: cs) radix = List.foldl (radixStep radix) (some 0) (c :: cs) := by
  simp only [fromStrRadix, List.head?_cons, List.tail_cons, Option.some.injEq]
  rw [if_neg hc, if_neg (by simp)]

theorem fromStrRadix_natChars (base n : Nat) (hb : 2 ≤ base) (hb10 : base ≤ 10)
    (hn : n < 2 ^ 64) : fromStrRadix (natChars base n) base = some n := by
  obtain ⟨hval, hmem⟩ := toDigitsAux_spec base hb n n (Nat.le_refl n)
  have hne := toDigitsAux_ne_nil base n n
  have hbound : 0 * base ^ (toDigitsAux base n n).length +
      parseVal base (toDigitsAux base n n) < 2 ^ 64 := by
    rw [hval]; simpa using hn
  have hfold := radixStep_foldl base hb10 (toDigitsAux base n n) 0 hmem hbound
  rw [hval] at hfold
  simp only [Nat.zero_mul, Nat.zero_add] at hfold
  cases hds : toDigitsAux base n n with
  | nil => exact absurd hds hne
  | cons d0 t0 =>
    simp only [hds, List.map_cons] at hfold
    simp only [natChars, hds, List.map_cons]
    rw [fromStrRadix_cons _ _ _ (by omega)]
    exact hfold

/-! ### Right-trimming -/

theorem revDropWhile_append (p : Nat → Bool) (xs ys : List Nat)
    (h : ∀ y ∈ ys, p y = true) :
    ((xs ++ ys).reverse.dropWhile p).reverse = (xs.reverse.dropWhile p).reverse := by
  rw [List.reverse_append]
  rw [List.dropWhile_append_of_pos (fun a ha => h a (List.mem_reverse.mp ha))]

theorem revDropWhile_eq_self (p : Nat → Bool) (xs : List Nat)
    (h : ∀ w, xs.getLast? = some w → p w = false) :
    (xs.reverse.dropWhile p).reverse = xs := by
  cases hrev : xs.reverse with
  | nil =>
    have hx : xs = [] := by simpa using congrArg List.reverse hrev
    simp [hx]
  | cons hd tl =>
    have hlast : xs.getLast? = some hd := by
      rw [← List.head?_reverse, hrev]
      rfl
    rw [List.dropWhile_cons_of_neg (by simp [h hd hlast])]
    rw [← hrev, List.reverse_reverse]

theorem trimRight_append_ws (xs ys : List Nat)
    (h : ∀ y ∈ ys, isWhitespaceChar y = true) :
    trimRight (xs ++ ys) = trimRight xs :=
  revDropWhile_append _ xs ys h

theorem trimRight_eq_self (xs : List Nat)
    (h : ∀ w, xs.getLast? = some w → isWhitespaceChar w = false) :
    trimRight xs = xs :=
  revDropWhile_eq_self _ xs h

theorem stripZeros_append (xs ys : List Nat) (h : ∀ y ∈ ys, y = 0) :
    stripTrailingZeros (xs ++ ys) = stripTrailingZeros xs :=
  revDropWhile_append _ xs ys (by intro y hy; simp [h y hy])

theorem stripZeros_eq_self (xs : List Nat)
    (h : ∀ w, xs.getLast? = some w → w ≠ 0) :
    stripTrailingZeros xs = xs :=
  revDropWhile_eq_self _ xs (by intro w hw; simp [h w hw])

theorem isWhitespaceChar_space : isWhitespaceChar 32 = true := rfl

theorem isWhitespaceChar_digit (c : Nat) (h1 : 48 ≤ c) (h2 : c ≤ 57) :
    isWhitespaceChar c = false := by
  simp only [isWhitespaceChar]
  simp
  omega

/-! ### UTF-8 -/

theorem utf8DecodeOne_ascii (b : Nat) (bs : List Nat) (hb : b < 0x80) :
    utf8DecodeOne (b :: bs) = some (b, bs) := by
  simp only [utf8DecodeOne, if_pos hb]

theorem utf8DecodeOne_length (l : List Nat) (c : Nat) (rest : List Nat)
    (h : utf8DecodeOne l = some (c, rest)) : rest.length < l.length := by
  cases l with
  | nil => simp [utf8DecodeOne] at h
  | cons b bs =>
    rcases bs with _ | ⟨b1, _ | ⟨b2, _ | ⟨b3, bs2⟩⟩⟩ <;>
      simp only [utf8DecodeOne] at h <;>
      split_ifs at h <;>
      simp_all <;>
      omega

theorem utf8DecodeAux_succ (fuel : Nat) : ∀ l : List Nat, l.length ≤ fuel →
    utf8DecodeAux (fuel + 1) l = utf8DecodeAux fuel l := by
  induction fuel with
  | zero =>
    intro l h
    cases l with
    | nil => rfl
    | cons b bs => simp at h
  | succ fuel ih =>
    intro l h
    cases l with
    | nil => rfl
    | cons b bs =>
      cases hone : utf8DecodeOne (b :: bs) with
      | none => simp only [utf8DecodeAux, hone]
      | some pr =>
        obtain ⟨c, rest⟩ := pr
        have hlen := utf8DecodeOne_length _ _ _ hone
        simp only [utf8DecodeAux, hone]
        rw [ih rest (by simp at hlen h ⊢; omega)]

theorem utf8DecodeAux_fuel (fuel : Nat) : ∀ l : List Nat, l.length ≤ fuel →
    utf8DecodeAux fuel l = utf8DecodeAux l.length l := by
  induction fuel with
  | zero =>
    intro l h
    cases l with
    | nil => rfl
    | cons b bs => simp at h
  | succ fuel ih =>
    intro l h
    rcases Nat.eq_or_lt_of_le h with heq | hlt
    · rw [heq]
    · have hle : l.length ≤ fuel := by omega
      rw [utf8DecodeAux_succ fuel l hle, ih l hle]

theorem utf8Decode_step (l : List Nat) (c : Nat) (rest : List Nat)
    (h : utf8DecodeOne l = some (c, rest)) :
    utf8Decode l = (utf8Decode rest).map (fun cs => c :: cs) := by
  cases l with
  | nil => simp [utf8DecodeOne] at h
  | cons b bs =>
    have hlen : rest.length < bs.length + 1 := utf8DecodeOne_length _ _ _ h
    simp only [utf8Decode, List.length_cons, utf8DecodeAux, h]
    rw [utf8DecodeAux_fuel bs.length rest (by omega)]
    cases utf8DecodeAux rest.length rest <;> rfl

theorem utf8Decode_cons_of_lt (b : Nat) (bs : List Nat) (hb : b < 0x80) :
    utf8Decode (b :: bs) = (utf8Decode bs).map (fun cs => b :: cs) :=
  utf8Decode_step _ _ _ (utf8DecodeOne_ascii b bs hb)

theorem utf8Decode_ascii_append (xs t : List Nat) (h : ∀ b ∈ xs, b < 128) :
    utf8Decode (xs ++ t) = (utf8Decode t).map (fun cs => xs ++ cs) := by
  induction xs with
  | nil =>
    cases hdec : utf8Decode t <;> simp [hdec]
  | cons b bt ih =>
    have hb : b < 128 := h b (List.mem_cons_self b bt)
    have ih2 := ih (fun x hx => h x (List.mem_cons_of_mem b hx))
    rw [List.cons_append, utf8Decode_cons_of_lt b _ hb, ih2]
    cases hdec : utf8Decode t <;> simp [hdec]

theorem utf8Decode_ascii (xs : List Nat) (h : ∀ b ∈ xs, b < 128) :
    utf8Decode xs = some xs := by
  have := utf8Decode_ascii_append xs [] h
  simp only [List.append_nil] at this
  rw [this]
  simp [utf8Decode, utf8DecodeAux]

theorem utf8DecodeOne_encodeChar (c : Nat) (hc : validScalar c = true) (t : List Nat) :
    utf8DecodeOne (encodeChar c ++ t) = some (c, t) := by
  have hv : c < 0x110000 ∧ (c < 0xD800 ∨ 0xE000 ≤ c) := by
    simp [validScalar] at hc
    omega
  obtain ⟨hmax, hsur⟩ := hv
  by_cases h80 : c < 0x80
  · simp only [encodeChar, if_pos h80, List.cons_append, List.nil_append]
    exact utf8DecodeOne_ascii c t h80
  · by_cases h800 : c < 0x800
    · have e0 : ¬ (0xC0 + c / 0x40 < 0x80) := by omega
      have e1 : ¬ (0xC0 + c / 0x40 < 0xC2) := by omega
      have e2 : 0xC0 + c / 0x40 < 0xE0 := by omega
      have e3 : contByte (0x80 + c % 0x40) = true := by
        simp [contByte]
        omega
      have heid : (0xC0 + c / 0x40 - 0xC0) * 0x40 + (0x80 + c % 0x40 - 0x80) = c := by
        omega
      simp only [encodeChar, if_neg h80, if_pos h800, List.cons_append, List.nil_append,
        utf8DecodeOne, if_neg e0, if_neg e1, if_pos e2, e3, if_true, heid]
    · by_cases h10000 : c < 0x10000
      · have e0 : ¬ (0xE0 + c / 0x1000 < 0x80) := by omega
        have e1 : ¬ (0xE0 + c / 0x1000 < 0xC2) := by omega
        have e2 : ¬ (0xE0 + c / 0x1000 < 0xE0) := by omega
        have e3 : 0xE0 + c / 0x1000 < 0xF0 := by omega
        have hb2 : contByte (0x80 + c % 0x40) = true := by
          simp [contByte]
          omega
        have heid : (0xE0 + c / 0x1000 - 0xE0) * 0x1000 +
            (0x80 + c / 0x40 % 0x40 - 0x80) * 0x40 + (0x80 + c % 0x40 - 0x80) = c := by
          omega
        by_cases hqE0 : 0xE0 + c / 0x1000 = 0xE0
        · have b0t : (0xE0 + c / 0x1000 == 0xE0) = true := by
            simp [hqE0]
          have hb1 : (0xA0 ≤ 0x80 + c / 0x40 % 0x40 &&
              0x80 + c / 0x40 % 0x40 < 0xC0) = true := by
            simp
            omega
          simp only [encodeChar, if_neg h80, if_neg h800, if_pos h10000,
            List.cons_append, List.nil_append, utf8DecodeOne, if_neg e0, if_neg e1,
            if_neg e2, if_pos e3, b0t, hb1, hb2, Bool.and_self, if_true, heid]
        · by_cases hqED : 0xE0 + c / 0x1000 = 0xED
          · have b0f : (0xE0 + c / 0x1000 == 0xE0) = false := by
              simp [hqE0]
            have b0t : (0xE0 + c / 0x1000 == 0xED) = true := by
              simp [hqED]
            have hcd : c < 0xD800 := by omega
            have hb1 : (0x80 ≤ 0x80 + c / 0x40 % 0x40 &&
                0x80 + c / 0x40 % 0x40 < 0xA0) = true := by
              simp
              omega
            simp only [encodeChar, if_neg h80, if_neg h800, if_pos h10000,
              List.cons_append, List.nil_append, utf8DecodeOne, if_neg e0, if_neg e1,
              if_neg e2, if_pos e3, b0f, b0t, hb1, hb2, Bool.false_eq_true,
              Bool.and_self, if_true, if_false, heid]
          · have b0f : (0xE0 + c / 0x1000 == 0xE0) = false := by
              simp [hqE0]
            have b0f2 : (0xE0 + c / 0x1000 == 0xED) = false := by
              simp [hqED]
            have hb1 : contByte (0x80 + c / 0x40 % 0x40) = true := by
              simp [contByte]
              omega
            simp only [encodeChar, if_neg h80, if_neg h800, if_pos h10000,
              List.cons_append, List.nil_append, utf8DecodeOne, if_neg e0, if_neg e1,
              if_neg e2, if_pos e3, b0f, b0f2, hb1, hb2, Bool.and_self,
              Bool.false_eq_true, if_true, if_false, heid]
      · have e0 : ¬ (0xF0 + c / 0x40000 < 0x80) := by omega
        have e1 : ¬ (0xF0 + c / 0x40000 < 0xC2) := by omega
        have e2 : ¬ (0xF0 + c / 0x40000 < 0xE0) := by omega
        have e3 : ¬ (0xF0 + c / 0x40000 < 0xF0) := by omega
        have e4 : 0xF0 + c / 0x40000 < 0xF5 := by omega
        have hb2 : contByte (0x80 + c / 0x40 % 0x40) = true := by
          simp [contByte]
          omega
        have hb3 : contByte (0x80 + c % 0x40) = true := by
          simp [contByte]
          omega
        have heid : (0xF0 + c / 0x40000 - 0xF0) * 0x40000 +
            (0x80 + c / 0x1000 % 0x40 - 0x80) * 0x1000 +
            (0x80 + c / 0x40 % 0x40 - 0x80) * 0x40 + (0x80 + c % 0x40 - 0x80) = c := by
          omega
        by_cases hqF0 : 0xF0 + c / 0x40000 = 0xF0
        · have b0t : (0xF0 + c / 0x40000 == 0xF0) = true := by
            simp [hqF0]
          have hb1 : (0x90 ≤ 0x80 + c / 0x1000 % 0x40 &&
              0x80 + c / 0x1000 % 0x40 < 0xC0) = true := by
            simp
            omega
          simp only [encodeChar, if_neg h80, if_neg h800, if_neg h10000,
            List.cons_append, List.nil_append, utf8DecodeOne, if_neg e0, if_neg e1,
            if_neg e2, if_neg e3, if_pos e4, b0t, hb1, hb2, hb3, Bool.and_self,
            if_true, heid]
        · by_cases hqF4 : 0xF0 + c / 0x40000 = 0xF4
          · have b0f : (0xF0 + c / 0x40000 == 0xF0) = false := by
              simp [hqF0]
            have b0t : (0xF0 + c / 0x40000 == 0xF4) = true := by
              simp [hqF4]
            have hb1 : (0x80 ≤ 0x80 + c / 0x1000 % 0x40 &&
                0x80 + c / 0x1000 % 0x40 < 0x90) = true := by
              simp
              omega
            simp only [encodeChar, if_neg h80, if_neg h800, if_neg h10000,
              List.cons_append, List.nil_append, utf8DecodeOne, if_neg e0, if_neg e1,
              if_neg e2, if_neg e3, if_pos e4, b0f, b0t, hb1, hb2, hb3, Bool.and_self,
              Bool.false_eq_true, if_true, if_false, heid]
          · have b0f : (0xF0 + c / 0x40000 == 0xF0) = false := by
              simp [hqF0]
            have b0f2 : (0xF0 + c / 0x40000 == 0xF4) = false := by
              simp [hqF4]
            have hb1 : contByte (0x80 + c / 0x1000 % 0x40) = true := by
              simp [contByte]
              omega
            simp only [encodeChar, if_neg h80, if_neg h800, if_neg h10000,
              List.cons_append, List.nil_append, utf8DecodeOne, if_neg e0, if_neg e1,
              if_neg e2, if_neg e3, if_pos e4, b0f, b0f2, hb1, hb2, hb3, Bool.and_self,
              Bool.false_eq_true, if_true, if_false, heid]

theorem utf8Decode_encodeChar_append (c : Nat) (hc : validScalar c = true)
    (t : List Nat) :
    utf8Decode (encodeChar c ++ t) = (utf8Decode t).map (fun cs => c :: cs) :=
  utf8Decode_step _ _ _ (utf8DecodeOne_encodeChar c hc t)

theorem utf8Decode_encode_append (cs t : List Nat)
    (h : ∀ c ∈ cs, validScalar c = true) :
    utf8Decode (utf8Encode cs ++ t) = (utf8Decode t).map (fun l => cs ++ l) := by
  induction cs with
  | nil =>
    cases hdec : utf8Decode t <;> simp [utf8Encode, hdec]
  | cons c ct ih =>
    have hc := h c (List.mem_cons_self c ct)
    have ih2 := ih (fun x hx => h x (List.mem_cons_of_mem c hx))
    rw [utf8Encode, List.append_assoc, utf8Decode_encodeChar_append c hc, ih2]
    cases hdec : utf8Decode t <;> simp [hdec]

theorem utf8Decode_encode (cs : List Nat) (h : ∀ c ∈ cs, validScalar c = true) :
    utf8Decode (utf8Encode cs) = some cs := by
  have := utf8Decode_encode_append cs [] h
  simp only [List.append_nil] at this
  rw [this]
  simp [utf8Decode, utf8DecodeAux]

theorem encodeChar_ne_nil (c : Nat) : encodeChar c ≠ [] := by
  unfold encodeChar
  split_ifs <;> simp

theorem encodeChar_pos (c : Nat) (hc : c ≠ 0) : ∀ b ∈ encodeChar c, 0 < b := by
  intro b hb
  unfold encodeChar at hb
  split_ifs at hb <;> simp at hb <;> omega

theorem utf8Encode_pos (cs : List Nat) (h0 : 0 ∉ cs) :
    ∀ b ∈ utf8Encode cs, 0 < b := by
  induction cs with
  | nil => simp [utf8Encode]
  | cons c ct ih =>
    intro b hb
    rw [utf8Encode, List.mem_append] at hb
    rcases hb with hb | hb
    · exact encodeChar_pos c (by intro hc; exact h0 (hc ▸ List.mem_cons_self c ct)) b hb
    · exact ih (fun hm => h0 (List.mem_cons_of_mem c hm)) b hb

theorem utf8Encode_ne_nil (cs : List Nat) (h : cs ≠ []) : utf8Encode cs ≠ [] := by
  cases cs with
  | nil => exact absurd rfl h
  | cons c ct =>
    rw [utf8Encode]
    intro he
    exact encodeChar_ne_nil c (List.append_eq_nil.mp he).1

/-! ### Field-level encode/decode -/

theorem fmtLeft_length (s : List Nat) (w : Nat) (h : s.length ≤ w) :
    (fmtLeft s w).length = w := by
  simp [fmtLeft]
  omega

theorem natChars_lt128 (base n : Nat) (hb : 2 ≤ base) (hb10 : base ≤ 10) :
    ∀ c ∈ natChars base n, c < 128 := by
  intro c hc
  have := natChars_mem base n hb hb10 c hc
  omega

theorem fmtLeft_lt128 (s : List Nat) (w : Nat) (h : ∀ c ∈ s, c < 128) :
    ∀ c ∈ fmtLeft s w, c < 128 := by
  intro c hc
  rw [fmtLeft, List.mem_append] at hc
  rcases hc with hc | hc
  · exact h c hc
  · have := List.eq_of_mem_replicate hc
    omega

theorem trimRight_fmtLeft_natChars (base n w : Nat) (hb : 2 ≤ base)
    (hb10 : base ≤ 10) :
    trimRight (fmtLeft (natChars base n) w) = natChars base n := by
  rw [fmtLeft, trimRight_append_ws _ _ (by
    intro y hy
    have := List.eq_of_mem_replicate hy
    subst this
    rfl)]
  apply trimRight_eq_self
  intro x hx
  have hmem : x ∈ natChars base n := by
    rcases List.getLast?_eq_some_iff.mp hx with ⟨ys, hys⟩
    rw [hys]
    exact List.mem_append.mpr (Or.inr (List.mem_singleton_self x))
  have := natChars_mem base n hb hb10 x hmem
  exact isWhitespaceChar_digit x (by omega) (by omega)

/-- Parsing a left-justified rendered numeral recovers the number. -/
theorem parse_number_fmtLeft_natChars (base n w : Nat) (hb : 2 ≤ base)
    (hb10 : base ≤ 10) (hn : n < 2 ^ 64) :
    parse_number (fmtLeft (natChars base n) w) base = Except.ok n := by
  rw [parse_number]
  rw [utf8Decode_ascii _ (fmtLeft_lt128 _ _ (natChars_lt128 base n hb hb10))]
  simp only [trimRight_fmtLeft_natChars base n w hb hb10,
    fromStrRadix_natChars base n hb hb10 hn]

/-! ### Reading back a written header -/

/-- Decoding a written short-form record (identifier stored inline)
recovers the header exactly and leaves the trailing bytes untouched. -/
theorem Header.read_write_short (h : Header) (tail : List Nat)
    (hlen : (utf8Encode h.identifier).length ≤ 16)
    (hsp : h.identifier.contains 32 = false)
    (hext : ([35, 49, 47].isPrefixOf h.identifier) = false)
    (htrim : trimRight h.identifier = h.identifier)
    (hval : ∀ c ∈ h.identifier, validScalar c = true)
    (hm : h.mtime < 10 ^ 12) (hu : h.uid < 10 ^ 6) (hg : h.gid < 10 ^ 6)
    (hmo : h.mode < 8 ^ 8) (hs : h.size < 10 ^ 10) :
    Header.read (Header.write h ++ tail) = Except.ok (some h, tail) := by
  have hcond : (16 < (utf8Encode h.identifier).length ||
      h.identifier.contains 32) = false := by
    rw [hsp]
    simp
    omega
  have hw : Header.write h =
      fmtLeft (utf8Encode h.identifier) 16 ++
        (fmtLeft (natChars 10 h.mtime) 12 ++
          (fmtLeft (natChars 10 h.uid) 6 ++
            (fmtLeft (natChars 10 h.gid) 6 ++
              (fmtLeft (natChars 8 h.mode) 8 ++
                (fmtLeft (natChars 10 h.size) 10 ++ [96, 10]))))) := by
    simp only [Header.write, hcond, Bool.false_eq_true, if_false]
    simp [List.append_assoc]
  rw [hw]
  set A := fmtLeft (utf8Encode h.identifier) 16 with hAdef
  set B := fmtLeft (natChars 10 h.mtime) 12 with hBdef
  set C := fmtLeft (natChars 10 h.uid) 6 with hCdef
  set D := fmtLeft (natChars 10 h.gid) 6 with hDdef
  set E := fmtLeft (natChars 8 h.mode) 8 with hEdef
  set F := fmtLeft (natChars 10 h.size) 10 with hFdef
  have hA : A.length = 16 := by
    rw [hAdef]
    exact fmtLeft_length _ _ hlen
  have hB : B.length = 12 := by
    rw [hBdef]
    exact fmtLeft_length _ _ (natChars_length 10 h.mtime 12 (by norm_num) hm (by norm_num))
  have hC : C.length = 6 := by
    rw [hCdef]
    exact fmtLeft_length _ _ (natChars_length 10 h.uid 6 (by norm_num) hu (by norm_num))
  have hD : D.length = 6 := by
    rw [hDdef]
    exact fmtLeft_length _ _ (natChars_length 10 h.gid 6 (by norm_num) hg (by norm_num))
  have hE : E.length = 8 := by
    rw [hEdef]
    exact fmtLeft_length _ _ (natChars_length 8 h.mode 8 (by norm_num) hmo (by norm_num))
  have hF : F.length = 10 := by
    rw [hFdef]
    exact fmtLeft_length _ _ (natChars_length 10 h.size 10 (by norm_num) hs (by norm_num))
  set W := A ++ (B ++ (C ++ (D ++ (E ++ (F ++ [96, 10]))))) with hWdef
  have hW : W.length = 60 := by
    rw [hWdef]
    simp only [List.length_append, List.length_cons, List.length_nil, hA, hB, hC, hD, hE, hF]
  have hbuf : (W ++ tail).take 60 = W := List.take_left' hW
  have hrest : (W ++ tail).drop 60 = tail := List.drop_left' hW
  have d16 : W.drop 16 = B ++ (C ++ (D ++ (E ++ (F ++ [96, 10])))) := by
    rw [hWdef]
    exact List.drop_left' hA
  have d28 : W.drop 28 = C ++ (D ++ (E ++ (F ++ [96, 10]))) := by
    rw [show (28 : Nat) = 16 + 12 from rfl, ← List.drop_drop, d16]
    exact List.drop_left' hB
  have d34 : W.drop 34 = D ++ (E ++ (F ++ [96, 10])) := by
    rw [show (34 : Nat) = 28 + 6 from rfl, ← List.drop_drop, d28]
    exact List.drop_left' hC
  have d40 : W.drop 40 = E ++ (F ++ [96, 10]) := by
    rw [show (40 : Nat) = 34 + 6 from rfl, ← List.drop_drop, d34]
    exact List.drop_left' hD
  have d48 : W.drop 48 = F ++ [96, 10] := by
    rw [show (48 : Nat) = 40 + 8 from rfl, ← List.drop_drop, d40]
    exact List.drop_left' hE
  have hsl0 : slice W 0 16 = A := by
    simp only [slice, List.drop_zero, Nat.sub_zero]
    rw [hWdef]
    exact List.take_left' hA
  have hsl1 : slice W 16 28 = B := by
    simp only [slice, d16, show (28 : Nat) - 16 = 12 from rfl]
    exact List.take_left' hB
  have hsl2 : slice W 28 34 = C := by
    simp only [slice, d28, show (34 : Nat) - 28 = 6 from rfl]
    exact List.take_left' hC
  have hsl3 : slice W 34 40 = D := by
    simp only [slice, d34, show (40 : Nat) - 34 = 6 from rfl]
    exact List.take_left' hD
  have hsl4 : slice W 40 48 = E := by
    simp only [slice, d40, show (48 : Nat) - 40 = 8 from rfl]
    exact List.take_left' hE
  have hsl5 : slice W 48 58 = F := by
    simp only [slice, d48, show (58 : Nat) - 48 = 10 from rfl]
    exact List.take_left' hF
  have hid : utf8Decode A =
      some (h.identifier ++ List.replicate (16 - (utf8Encode h.identifier).length) 32) := by
    rw [hAdef, fmtLeft, utf8Decode_encode_append h.identifier _ hval,
      utf8Decode_ascii _ (by
        intro b hb
        have := List.eq_of_mem_replicate hb
        omega)]
    rfl
  have htr : trimRight (h.identifier ++
      List.replicate (16 - (utf8Encode h.identifier).length) 32) = h.identifier := by
    rw [trimRight_append_ws _ _ (by
      intro y hy
      have := List.eq_of_mem_replicate hy
      subst this
      rfl), htrim]
  have hp1 : parse_number B 10 = Except.ok h.mtime := by
    rw [hBdef]
    exact parse_number_fmtLeft_natChars 10 h.mtime 12 (by norm_num) (by norm_num)
      (lt_trans hm (by norm_num))
  have hp2 : parse_number C 10 = Except.ok h.uid := by
    rw [hCdef]
    exact parse_number_fmtLeft_natChars 10 h.uid 6 (by norm_num) (by norm_num)
      (lt_trans hu (by norm_num))
  have hp3 : parse_number D 10 = Except.ok h.gid := by
    rw [hDdef]
    exact parse_number_fmtLeft_natChars 10 h.gid 6 (by norm_num) (by norm_num)
      (lt_trans hg (by norm_num))
  have hp4 : parse_number E 8 = Except.ok h.mode := by
    rw [hEdef]
    exact parse_number_fmtLeft_natChars 8 h.mode 8 (by norm_num) (by norm_num)
      (lt_trans hmo (by norm_num))
  have hp5 : parse_number F 10 = Except.ok h.size := by
    rw [hFdef]
    exact parse_number_fmtLeft_natChars 10 h.size 10 (by norm_num) (by norm_num)
      (lt_trans hs (by norm_num))
  have hm1 : h.uid % 2 ^ 32 = h.uid := Nat.mod_eq_of_lt (lt_trans hu (by norm_num))
  have hm2 : h.gid % 2 ^ 32 = h.gid := Nat.mod_eq_of_lt (lt_trans hg (by norm_num))
  have hm3 : h.mode % 2 ^ 32 = h.mode := Nat.mod_eq_of_lt (lt_trans hmo (by norm_num))
  have hlen0 : ¬ ((W ++ tail).length = 0) := by
    rw [List.length_append, hW]
    omega
  have hlen60 : ¬ ((W ++ tail).length < 60) := by
    rw [List.length_append, hW]
    omega
  simp only [Header.read, hlen0, hlen60, hbuf, hrest, hsl0, hsl1, hsl2, hsl3, hsl4,
    hsl5, hid, htr, hp1, hp2, hp3, hp4, hp5, hm1, hm2, hm3, hext,
    Bool.false_eq_true, if_false, ite_false, ite_true]

/-- Decoding a written extended-form record (BSD long-filename form)
recovers the identifier and the declared payload size exactly. -/
theorem Header.read_write_ext (h : Header) (tail : List Nat)
    (hcase : (16 < (utf8Encode h.identifier).length ||
      h.identifier.contains 32) = true)
    (hzero : 0 ∉ h.identifier)
    (hval : ∀ c ∈ h.identifier, validScalar c = true)
    (hm : h.mtime < 10 ^ 12) (hu : h.uid < 10 ^ 6) (hg : h.gid < 10 ^ 6)
    (hmo : h.mode < 8 ^ 8)
    (hpl : (utf8Encode h.identifier).length +
      (4 - (utf8Encode h.identifier).length % 4) % 4 < 10 ^ 13)
    (hsz : h.size + ((utf8Encode h.identifier).length +
      (4 - (utf8Encode h.identifier).length % 4) % 4) < 10 ^ 10) :
    Header.read (Header.write h ++ tail) = Except.ok (some h, tail) := by
  set idB := utf8Encode h.identifier with hidB
  set pad := (4 - idB.length % 4) % 4 with hpad
  set padded := idB.length + pad with hpadded
  have hw : Header.write h ++ tail =
      ([35, 49, 47] ++ (fmtLeft (natChars 10 padded) 13 ++
        (fmtLeft (natChars 10 h.mtime) 12 ++
          (fmtLeft (natChars 10 h.uid) 6 ++
            (fmtLeft (natChars 10 h.gid) 6 ++
              (fmtLeft (natChars 8 h.mode) 8 ++
                (fmtLeft (natChars 10 (h.size + padded)) 10 ++ [96, 10]))))))) ++
        (idB ++ (List.replicate pad 0 ++ tail)) := by
    simp only [Header.write, hcase, if_true, ← hidB, ← hpad, ← hpadded]
    simp [List.append_assoc]
  rw [hw]
  set B := fmtLeft (natChars 10 h.mtime) 12 with hBdef
  set C := fmtLeft (natChars 10 h.uid) 6 with hCdef
  set D := fmtLeft (natChars 10 h.gid) 6 with hDdef
  set E := fmtLeft (natChars 8 h.mode) 8 with hEdef
  set F := fmtLeft (natChars 10 (h.size + padded)) 10 with hFdef
  set P := fmtLeft (natChars 10 padded) 13 with hPdef
  have hP : P.length = 13 := by
    rw [hPdef]
    exact fmtLeft_length _ _ (natChars_length 10 padded 13 (by norm_num) hpl (by norm_num))
  have hB : B.length = 12 := by
    rw [hBdef]
    exact fmtLeft_length _ _ (natChars_length 10 h.mtime 12 (by norm_num) hm (by norm_num))
  have hC : C.length = 6 := by
    rw [hCdef]
    exact fmtLeft_length _ _ (natChars_length 10 h.uid 6 (by norm_num) hu (by norm_num))
  have hD : D.length = 6 := by
    rw [hDdef]
    exact fmtLeft_length _ _ (natChars_length 10 h.gid 6 (by norm_num) hg (by norm_num))
  have hE : E.length = 8 := by
    rw [hEdef]
    exact fmtLeft_length _ _ (natChars_length 8 h.mode 8 (by norm_num) hmo (by norm_num))
  have hF : F.length = 10 := by
    rw [hFdef]
    exact fmtLeft_length _ _ (natChars_length 10 (h.size + padded) 10 (by norm_num) hsz
      (by norm_num))
  set W := [35, 49, 47] ++ (P ++ (B ++ (C ++ (D ++ (E ++ (F ++ [96, 10])))))) with hWdef
  set T := idB ++ (List.replicate pad 0 ++ tail) with hTdef
  have hW : W.length = 60 := by
    rw [hWdef]
    simp only [List.length_append, List.length_cons, List.length_nil, hP, hB, hC, hD,
      hE, hF]
  have hbuf : (W ++ T).take 60 = W := List.take_left' hW
  have hrest : (W ++ T).drop 60 = T := List.drop_left' hW
  have d3 : W.drop 3 = P ++ (B ++ (C ++ (D ++ (E ++ (F ++ [96, 10]))))) := by
    rw [hWdef]
    exact List.drop_left' rfl
  have d16 : W.drop 16 = B ++ (C ++ (D ++ (E ++ (F ++ [96, 10])))) := by
    rw [show (16 : Nat) = 3 + 13 from rfl, ← List.drop_drop, d3]
    exact List.drop_left' hP
  have d28 : W.drop 28 = C ++ (D ++ (E ++ (F ++ [96, 10]))) := by
    rw [show (28 : Nat) = 16 + 12 from rfl, ← List.drop_drop, d16]
    exact List.drop_left' hB
  have d34 : W.drop 34 = D ++ (E ++ (F ++ [96, 10])) := by
    rw [show (34 : Nat) = 28 + 6 from rfl, ← List.drop_drop, d28]
    exact List.drop_left' hC
  have d40 : W.drop 40 = E ++ (F ++ [96, 10]) := by
    rw [show (40 : Nat) = 34 + 6 from rfl, ← List.drop_drop, d34]
    exact List.drop_left' hD
  have d48 : W.drop 48 = F ++ [96, 10] := by
    rw [show (48 : Nat) = 40 + 8 from rfl, ← List.drop_drop, d40]
    exact List.drop_left' hE
  have hsl0 : slice W 0 16 = [35, 49, 47] ++ P := by
    simp only [slice, List.drop_zero, Nat.sub_zero]
    rw [hWdef, ← List.append_assoc]
    exact List.take_left' (by simp [hP])
  have hslP : slice W 3 16 = P := by
    simp only [slice, d3, show (16 : Nat) - 3 = 13 from rfl]
    exact List.take_left' hP
  have hsl1 : slice W 16 28 = B := by
    simp only [slice, d16, show (28 : Nat) - 16 = 12 from rfl]
    exact List.take_left' hB
  have hsl2 : slice W 28 34 = C := by
    simp only [slice, d28, show (34 : Nat) - 28 = 6 from rfl]
    exact List.take_left' hC
  have hsl3 : slice W 34 40 = D := by
    simp only [slice, d34, show (40 : Nat) - 34 = 6 from rfl]
    exact List.take_left' hD
  have hsl4 : slice W 40 48 = E := by
    simp only [slice, d40, show (48 : Nat) - 40 = 8 from rfl]
    exact List.take_left' hE
  have hsl5 : slice W 48 58 = F := by
    simp only [slice, d48, show (58 : Nat) - 48 = 10 from rfl]
    exact List.take_left' hF
  have hid : utf8Decode ([35, 49, 47] ++ P) = some ([35, 49, 47] ++ P) := by
    apply utf8Decode_ascii
    intro b hb
    rcases List.mem_append.mp hb with hb | hb
    · simp at hb
      omega
    · rw [hPdef] at hb
      exact fmtLeft_lt128 _ _ (natChars_lt128 10 padded (by norm_num) (by norm_num)) b hb
  have htr : trimRight ([35, 49, 47] ++ P) = [35, 49, 47] ++ natChars 10 padded := by
    rw [hPdef, fmtLeft, ← List.append_assoc]
    rw [trimRight_append_ws _ _ (by
      intro y hy
      have := List.eq_of_mem_replicate hy
      subst this
      rfl)]
    apply trimRight_eq_self
    intro w hw2
    rw [List.getLast?_append] at hw2
    cases hnc : (natChars 10 padded).getLast? with
    | none => exact absurd (List.getLast?_eq_none_iff.mp hnc) (natChars_ne_nil 10 padded)
    | some d =>
      rw [hnc] at hw2
      simp only [Option.or_some] at hw2
      have hdw : d = w := Option.some.inj hw2
      have hmem : d ∈ natChars 10 padded := by
        rcases List.getLast?_eq_some_iff.mp hnc with ⟨ys, hys⟩
        rw [hys]
        exact List.mem_append.mpr (Or.inr (List.mem_singleton_self d))
      have := natChars_mem 10 padded (by norm_num) (by norm_num) d hmem
      rw [← hdw]
      exact isWhitespaceChar_digit d (by omega) (by omega)
  have hpre : ([35, 49, 47].isPrefixOf ([35, 49, 47] ++ natChars 10 padded)) = true := by
    simp
  have hpP : parse_number P 10 = Except.ok padded := by
    rw [hPdef]
    exact parse_number_fmtLeft_natChars 10 padded 13 (by norm_num) (by norm_num)
      (lt_trans hpl (by norm_num))
  have hp1 : parse_number B 10 = Except.ok h.mtime := by
    rw [hBdef]
    exact parse_number_fmtLeft_natChars 10 h.mtime 12 (by norm_num) (by norm_num)
      (lt_trans hm (by norm_num))
  have hp2 : parse_number C 10 = Except.ok h.uid := by
    rw [hCdef]
    exact parse_number_fmtLeft_natChars 10 h.uid 6 (by norm_num) (by norm_num)
      (lt_trans hu (by norm_num))
  have hp3 : parse_number D 10 = Except.ok h.gid := by
    rw [hDdef]
    exact parse_number_fmtLeft_natChars 10 h.gid 6 (by norm_num) (by norm_num)
      (lt_trans hg (by norm_num))
  have hp4 : parse_number E 8 = Except.ok h.mode := by
    rw [hEdef]
    exact parse_number_fmtLeft_natChars 8 h.mode 8 (by norm_num) (by norm_num)
      (lt_trans hmo (by norm_num))
  have hp5 : parse_number F 10 = Except.ok (h.size + padded) := by
    rw [hFdef]
    exact parse_number_fmtLeft_natChars 10 (h.size + padded) 10 (by norm_num)
      (by norm_num) (lt_trans hsz (by norm_num))
  have hm1 : h.uid % 2 ^ 32 = h.uid := Nat.mod_eq_of_lt (lt_trans hu (by norm_num))
  have hm2 : h.gid % 2 ^ 32 = h.gid := Nat.mod_eq_of_lt (lt_trans hg (by norm_num))
  have hm3 : h.mode % 2 ^ 32 = h.mode := Nat.mod_eq_of_lt (lt_trans hmo (by norm_num))
  have hlen0 : ¬ ((W ++ T).length = 0) := by
    rw [List.length_append, hW]
    omega
  have hlen60 : ¬ ((W ++ T).length < 60) := by
    rw [List.length_append, hW]
    omega
  have hsizelt : ¬ (h.size + padded < padded) := by omega
  have regroupT : T = (idB ++ List.replicate pad 0) ++ tail := by
    rw [hTdef, List.append_assoc]
  have hlenIR : (idB ++ List.replicate pad 0).length = padded := by
    simp [hpadded]
  have htakeT : T.take padded = idB ++ List.replicate pad 0 := by
    rw [regroupT]
    exact List.take_left' hlenIR
  have hlenT : ¬ (T.length < padded) := by
    rw [regroupT, List.length_append, hlenIR]
    omega
  have hdropT : T.drop padded = tail := by
    rw [regroupT]
    exact List.drop_left' hlenIR
  have hstrip : stripTrailingZeros (idB ++ List.replicate pad 0) = idB := by
    rw [stripZeros_append _ _ (fun y hy => List.eq_of_mem_replicate hy)]
    apply stripZeros_eq_self
    intro w hw3
    have hmem : w ∈ idB := by
      rcases List.getLast?_eq_some_iff.mp hw3 with ⟨ys, hys⟩
      rw [hys]
      exact List.mem_append.mpr (Or.inr (List.mem_singleton_self w))
    rw [hidB] at hmem
    have := utf8Encode_pos h.identifier hzero w hmem
    omega
  have hdecid : utf8Decode idB = some h.identifier := by
    rw [hidB]
    exact utf8Decode_encode _ hval
  have hsub : h.size + padded - padded = h.size := by omega
  simp only [Header.read, hlen0, hlen60, hbuf, hrest, hsl0, hslP, hsl1, hsl2, hsl3,
    hsl4, hsl5, hid, htr, hpre, hpP, hp1, hp2, hp3, hp4, hp5, hm1, hm2, hm3,
    hsizelt, htakeT, hlenT, hdropT, hstrip, hdecid, hsub, if_true, if_false,
    ite_false, ite_true]

/-! ### Archive pipeline -/

/-- On a fresh archive whose stream starts with the global magic, the
first `next_entry` consumes the magic and proceeds to header decoding
with no pending padding. -/
theorem Archive.next_entry_new (s : List Nat) :
    (Archive.new (GLOBAL_HEADER ++ s)).next_entry =
      Archive.readHeaderStep ⟨s, true, false, false⟩ := by
  have hlen : ¬ ((GLOBAL_HEADER ++ s).length < 8) := by
    simp [GLOBAL_HEADER]
  have htake : (GLOBAL_HEADER ++ s).take 8 = GLOBAL_HEADER := List.take_left' rfl
  have hdrop : (GLOBAL_HEADER ++ s).drop 8 = s := List.drop_left' rfl
  simp only [Archive.next_entry, Archive.new, Bool.not_false, if_true, hlen, htake,
    hdrop, ne_eq, not_true_eq_false, if_false, ite_false, ite_true,
    Archive.paddingStep, Bool.false_eq_true]

/-! ### State-machine helpers -/

theorem next_entry_of_finished (a : Archive) (h : a.finished = true) :
    a.next_entry = (a, none) := by
  simp [Archive.next_entry, h]

theorem readHeaderStep_finished (a : Archive)
    (h : (∃ err, (a.readHeaderStep).2 = some (Except.error err)) ∨
      (a.readHeaderStep).2 = none) :
    (a.readHeaderStep).1.finished = true := by
  unfold Archive.readHeaderStep
  rcases hr : Header.read a.reader with err | ⟨ho, rest⟩
  · simp [hr]
  · cases ho with
    | some hd =>
      unfold Archive.readHeaderStep at h
      rw [hr] at h
      simp at h
    | none => simp [hr]

theorem paddingStep_eq_of_padding_false (a : Archive) (hpad : a.padding = false) :
    a.paddingStep = a.readHeaderStep := by
  unfold Archive.paddingStep
  rw [hpad]
  simp

theorem paddingStep_eq_of_short (a : Archive) (hpad : a.padding = true)
    (hlen : a.reader.length < 1) :
    a.paddingStep = ({ a with finished := true },
      some (Except.error ⟨.unexpectedEof, "failed to fill whole buffer"⟩)) := by
  unfold Archive.paddingStep
  rw [hpad]
  simp [hlen]

theorem paddingStep_eq_of_newline (a : Archive) (hpad : a.padding = true)
    (hlen : ¬ a.reader.length < 1) (htk : a.reader.take 1 = [10]) :
    a.paddingStep =
      Archive.readHeaderStep { a with reader := a.reader.drop 1, padding := false } := by
  unfold Archive.paddingStep
  rw [hpad]
  simp [hlen, htk]

theorem paddingStep_eq_of_bad_byte (a : Archive) (hpad : a.padding = true)
    (hlen : ¬ a.reader.length < 1) (htk : a.reader.take 1 ≠ [10]) :
    a.paddingStep = ({ a with reader := a.reader.drop 1, finished := true },
      some (Except.error ⟨.invalidData, "Invalid padding byte"⟩)) := by
  unfold Archive.paddingStep
  rw [hpad]
  simp [hlen, htk]

theorem paddingStep_finished (a : Archive)
    (h : (∃ err, (a.paddingStep).2 = some (Except.error err)) ∨
      (a.paddingStep).2 = none) :
    (a.paddingStep).1.finished = true := by
  cases hpad : a.padding with
  | false =>
    rw [paddingStep_eq_of_padding_false a hpad] at h ⊢
    exact readHeaderStep_finished a h
  | true =>
    by_cases hlen : a.reader.length < 1
    · rw [paddingStep_eq_of_short a hpad hlen]
    · by_cases htk : a.reader.take 1 = [10]
      · rw [paddingStep_eq_of_newline a hpad hlen htk] at h ⊢
        exact readHeaderStep_finished _ h
      · rw [paddingStep_eq_of_bad_byte a hpad hlen htk]

theorem next_entry_eq_of_started (a : Archive) (hfin : a.finished = false)
    (hst : a.started = true) :
    a.next_entry = a.paddingStep := by
  unfold Archive.next_entry
  rw [hfin, hst]
  simp

theorem next_entry_eq_of_short_magic (a : Archive) (hfin : a.finished = false)
    (hst : a.started = false) (hlen : a.reader.length < 8) :
    a.next_entry = ({ a with finished := true },
      some (Except.error ⟨.unexpectedEof, "failed to fill whole buffer"⟩)) := by
  unfold Archive.next_entry
  rw [hfin, hst]
  simp [hlen]

theorem next_entry_eq_of_bad_magic (a : Archive) (hfin : a.finished = false)
    (hst : a.started = false) (hlen : ¬ a.reader.length < 8)
    (htk : a.reader.take 8 ≠ GLOBAL_HEADER) :
    a.next_entry = ({ a with reader := a.reader.drop 8, finished := true },
      some (Except.error ⟨.invalidData, "Not an archive file (invalid global header)"⟩)) := by
  unfold Archive.next_entry
  rw [hfin, hst]
  simp [hlen, htk]

theorem next_entry_eq_of_good_magic (a : Archive) (hfin : a.finished = false)
    (hst : a.started = false) (hlen : ¬ a.reader.length < 8)
    (htk : a.reader.take 8 = GLOBAL_HEADER) :
    a.next_entry =
      Archive.paddingStep { a with reader := a.reader.drop 8, started := true } := by
  unfold Archive.next_entry
  rw [hfin, hst]
  simp [hlen, htk]

theorem next_entry_finished (a : Archive)
    (h : (∃ err, (a.next_entry).2 = some (Except.error err)) ∨
      (a.next_entry).2 = none) :
    (a.next_entry).1.finished = true := by
  cases hfin : a.finished with
  | true =>
    rw [next_entry_of_finished a hfin]
    exact hfin
  | false =>
    cases hst : a.started with
    | true =>
      rw [next_entry_eq_of_started a hfin hst] at h ⊢
      exact paddingStep_finished a h
    | false =>
      by_cases hlen : a.reader.length < 8
      · rw [next_entry_eq_of_short_magic a hfin hst hlen]
      · by_cases htk : a.reader.take 8 = GLOBAL_HEADER
        · rw [next_entry_eq_of_good_magic a hfin hst hlen htk] at h ⊢
          exact paddingStep_finished _ h
        · rw [next_entry_eq_of_bad_magic a hfin hst hlen htk]

theorem readHeaderStep_ok_spec (a a2 : Archive) (e : Entry)
    (h : a.readHeaderStep = (a2, some (Except.ok e))) :
    Header.read a.reader = Except.ok (some e.header, a2.reader) ∧
    e.limit = e.header.size ∧
    a2.padding = (if e.header.size % 2 ≠ 0 then true else a.padding) ∧
    a2.started = a.started ∧ a2.finished = a.finished := by
  unfold Archive.readHeaderStep at h
  rcases hr : Header.read a.reader with err | ⟨ho, rest⟩
  · rw [hr] at h
    simp at h
  · rw [hr] at h
    cases ho with
    | none => simp at h
    | some hd =>
      simp only at h
      injection h with h1 h2
      injection h2 with h2
      injection h2 with h2
      subst h1
      subst h2
      exact ⟨rfl, rfl, rfl, rfl, rfl⟩

theorem paddingStep_ok_spec (a a2 : Archive) (e : Entry)
    (h : a.paddingStep = (a2, some (Except.ok e))) :
    e.limit = e.header.size ∧ (a2.padding = true ↔ e.header.size % 2 = 1) := by
  cases hpad : a.padding with
  | false =>
    rw [paddingStep_eq_of_padding_false a hpad] at h
    obtain ⟨_, hlim, hpadeq, _, _⟩ := readHeaderStep_ok_spec a a2 e h
    refine ⟨hlim, ?_⟩
    rw [hpadeq, hpad]
    by_cases hodd : e.header.size % 2 = 1
    · simp [hodd]
    · simp [hodd]
  | true =>
    by_cases hlen : a.reader.length < 1
    · rw [paddingStep_eq_of_short a hpad hlen] at h
      simp at h
    · by_cases htk : a.reader.take 1 = [10]
      · rw [paddingStep_eq_of_newline a hpad hlen htk] at h
        obtain ⟨_, hlim, hpadeq, _, _⟩ := readHeaderStep_ok_spec _ a2 e h
        refine ⟨hlim, ?_⟩
        rw [hpadeq]
        by_cases hodd : e.header.size % 2 = 1
        · simp [hodd]
        · simp [hodd]
      · rw [paddingStep_eq_of_bad_byte a hpad hlen htk] at h
        simp at h

theorem next_entry_ok_spec (a a2 : Archive) (e : Entry)
    (h : a.next_entry = (a2, some (Except.ok e))) :
    e.limit = e.header.size ∧ (a2.padding = true ↔ e.header.size % 2 = 1) := by
  cases hfin : a.finished with
  | true =>
    rw [next_entry_of_finished a hfin] at h
    simp at h
  | false =>
    cases hst : a.started with
    | true =>
      rw [next_entry_eq_of_started a hfin hst] at h
      exact paddingStep_ok_spec a a2 e h
    | false =>
      by_cases hlen : a.reader.length < 8
      · rw [next_entry_eq_of_short_magic a hfin hst hlen] at h
        simp at h
      · by_cases htk : a.reader.take 8 = GLOBAL_HEADER
        · rw [next_entry_eq_of_good_magic a hfin hst hlen htk] at h
          exact paddingStep_ok_spec _ a2 e h
        · rw [next_entry_eq_of_bad_magic a hfin hst hlen htk] at h
          simp at h

theorem readMany_exists (reqs : List Nat) : ∀ (e : Entry) (s : List Nat),
    ∃ k, k ≤ e.limit ∧ (Entry.readMany reqs e s).1 = s.take k ∧
      (Entry.readMany reqs e s).2.1.limit = e.limit - k ∧
      k = (Entry.readMany reqs e s).1.length := by
  induction reqs with
  | nil =>
    intro e s
    exact ⟨0, by simp [Entry.readMany]⟩
  | cons b bs ih =>
    intro e s
    obtain ⟨hd, lim⟩ := e
    obtain ⟨k, hk_le0, hk_eq, hk_lim0, hk_len⟩ :=
      ih ⟨hd, lim - (s.take (Nat.min b lim)).length⟩ (s.drop (Nat.min b lim))
    have hk_le : k ≤ lim - (s.take (Nat.min b lim)).length := hk_le0
    have hk_lim : (Entry.readMany bs ⟨hd, lim - (s.take (Nat.min b lim)).length⟩
        (s.drop (Nat.min b lim))).2.1.limit =
        lim - (s.take (Nat.min b lim)).length - k := hk_lim0
    have hgl : (s.take (Nat.min b lim)).length = Nat.min (Nat.min b lim) s.length :=
      List.length_take _ _
    have hm_le : Nat.min b lim ≤ lim := Nat.min_le_right b lim
    have hgl_le : (s.take (Nat.min b lim)).length ≤ Nat.min b lim := by
      rw [hgl]
      exact Nat.min_le_left _ _
    refine ⟨(s.take (Nat.min b lim)).length + k, ?_, ?_, ?_, ?_⟩
    · show (s.take (Nat.min b lim)).length + k ≤ lim
      omega
    · simp only [Entry.readMany, Entry.read]
      rw [hk_eq]
      rcases Nat.le_total (Nat.min b lim) s.length with hms | hms
      · have hglm : (s.take (Nat.min b lim)).length = Nat.min b lim := by
          rw [hgl]
          exact Nat.min_eq_left hms
        rw [hglm]
        exact (List.take_add s (Nat.min b lim) k).symm
      · have hdropnil : s.drop (Nat.min b lim) = [] := List.drop_eq_nil_of_le hms
        have hglm : (s.take (Nat.min b lim)).length = s.length := by
          rw [hgl]
          exact Nat.min_eq_right hms
        rw [hdropnil, List.take_nil, List.append_nil, hglm,
          List.take_of_length_le hms, List.take_of_length_le (by omega)]
    · simp only [Entry.readMany, Entry.read]
      rw [hk_lim]
      show lim - (s.take (Nat.min b lim)).length - k =
        lim - ((s.take (Nat.min b lim)).length + k)
      omega
    · simp only [Entry.readMany, Entry.read, List.length_append]
      omega

/-! ### Claims -/

/-- C3: a finished reader yields nothing and never changes state again,
and whenever `next_entry` returns an error or returns nothing, the
resulting reader is finished — so the very next call (and hence every
later call, the state being unchanged) yields `none`, and at most one
error is ever surfaced. -/
theorem claim3_error_is_terminal (a : Archive) :
    (a.finished = true → a.next_entry = (a, none)) ∧
    (((∃ err, (a.next_entry).2 = some (Except.error err)) ∨ (a.next_entry).2 = none) →
      (a.next_entry).1.finished = true ∧
      Archive.next_entry (a.next_entry).1 = ((a.next_entry).1, none)) := by
  refine ⟨fun h => next_entry_of_finished a h, fun h => ?_⟩
  have hf := next_entry_finished a h
  exact ⟨hf, next_entry_of_finished _ hf⟩

/-- C3 witness: a reader over an empty stream errors out on the magic
and is finished; the next call yields nothing. -/
theorem claim3_witness :
    (Archive.next_entry ⟨[], false, false, false⟩).1.finished = true ∧
    Archive.next_entry (Archive.next_entry ⟨[], false, false, false⟩).1 =
      ((Archive.next_entry ⟨[], false, false, false⟩).1, none) :=
  (claim3_error_is_terminal ⟨[], false, false, false⟩).2
    (Or.inl ⟨⟨.unexpectedEof, "failed to fill whole buffer"⟩, by decide⟩)

/-- C5: disposing an `Entry` always leaves the shared stream exactly
`limit` bytes past where the entry started, no matter which sequence of
caller reads happened first: draining on drop repositions the stream at
the first byte after the entry payload. -/
theorem claim5_drop_repositions (reqs : List Nat) (e : Entry) (s : List Nat) :
    Entry.dropRest (Entry.readMany reqs e s).2.1 (Entry.readMany reqs e s).2.2 =
      s.drop e.limit := by
  induction reqs generalizing e s with
  | nil =>
    by_cases h0 : 0 < e.limit
    · simp [Entry.readMany, Entry.dropRest, h0]
    · have hz : e.limit = 0 := by omega
      simp [Entry.readMany, Entry.dropRest, h0, hz]
  | cons b bs ih =>
    obtain ⟨hd, lim⟩ := e
    simp only [Entry.readMany, Entry.read]
    rw [ih]
    simp only
    rw [List.drop_drop]
    have hlt : (s.take (Nat.min b lim)).length = Nat.min (Nat.min b lim) s.length :=
      List.length_take _ _
    have hmin : Nat.min b lim ≤ lim := Nat.min_le_right b lim
    rcases Nat.le_total s.length (Nat.min b lim) with hle | hle
    · have h1 : s.length ≤ Nat.min b lim + (lim - (s.take (Nat.min b lim)).length) := by
        omega
      have h2 : s.length ≤ lim := by omega
      rw [List.drop_eq_nil_of_le h1, List.drop_eq_nil_of_le h2]
    · have htl : (s.take (Nat.min b lim)).length = Nat.min b lim := by
        rw [hlt]
        exact Nat.min_eq_left hle
      congr 1
      rw [htl]
      omega

/-- C6: entries produced by `next_entry` are bounded to the declared
header size: the `Take` limit equals the header's size; any sequence of
caller reads delivers at most `limit` bytes, and those bytes are an
initial segment of the first `limit` stream bytes (never bytes beyond
the payload); and once the limit is exhausted every further read
delivers nothing. -/
theorem claim6_bounded_reads :
    (∀ (a a2 : Archive) (e : Entry), a.next_entry = (a2, some (Except.ok e)) →
      e.limit = e.header.size) ∧
    (∀ (reqs : List Nat) (e : Entry) (s : List Nat),
      (Entry.readMany reqs e s).1.length ≤ e.limit ∧
      (Entry.readMany reqs e s).1 <+: s.take e.limit) ∧
    (∀ (e : Entry) (s : List Nat) (b : Nat), e.limit = 0 →
      (Entry.read e b s).1 = []) := by
  refine ⟨fun a a2 e h => (next_entry_ok_spec a a2 e h).1,
    fun reqs e s => ?_, fun e s b h0 => ?_⟩
  · obtain ⟨k, hk_le, hk_eq, _, hk_len⟩ := readMany_exists reqs e s
    constructor
    · rw [← hk_len]
      exact hk_le
    · rw [hk_eq, show s.take k = (s.take e.limit).take k from by
        rw [List.take_take, Nat.min_eq_left hk_le]]
      exact List.take_prefix _ _
  · simp [Entry.read, h0]

/-- C6 witness: a one-entry archive with payload size 1 yields an entry
whose limit equals its header size. -/
theorem claim6_witness :
    (⟨⟨[97], 0, 0, 0, 0, 1⟩, 1⟩ : Entry).limit =
      (⟨⟨[97], 0, 0, 0, 0, 1⟩, 1⟩ : Entry).header.size :=
  claim6_bounded_reads.1
    ⟨GLOBAL_HEADER ++
      ([97] ++ List.replicate 15 32 ++ ([48] ++ List.replicate 11 32) ++
        ([48] ++ List.replicate 5 32) ++ ([48] ++ List.replicate 5 32) ++
        ([48] ++ List.replicate 7 32) ++ ([49] ++ List.replicate 9 32) ++
        [96, 10] ++ [50]), false, false, false⟩
    ⟨[50], true, true, false⟩ ⟨⟨[97], 0, 0, 0, 0, 1⟩, 1⟩ (by decide)

/-- C7: with a started, unfinished reader — if the previous entry had
odd size (padding flag set), the next call consumes exactly one byte
and requires it to be a newline, failing fatally otherwise; with the
flag clear no inter-entry byte is consumed before the header; and a
successful decode sets the flag exactly when the new entry's size is
odd. -/
theorem claim7_padding (a : Archive) (ha : a.started = true)
    (hf : a.finished = false) :
    (∀ (a2 : Archive) (e : Entry), a.next_entry = (a2, some (Except.ok e)) →
      (a2.padding = true ↔ e.header.size % 2 = 1)) ∧
    (a.padding = true →
      (∀ b rest, a.reader = b :: rest → b ≠ 10 →
        a.next_entry = ({ a with reader := rest, finished := true },
          some (Except.error ⟨.invalidData, "Invalid padding byte"⟩))) ∧
      (∀ rest, a.reader = 10 :: rest →
        a.next_entry =
          Archive.readHeaderStep { a with reader := rest, padding := false })) ∧
    (a.padding = false → a.next_entry = Archive.readHeaderStep a) := by
  have hne : a.next_entry = a.paddingStep := next_entry_eq_of_started a hf ha
  refine ⟨fun a2 e h => (next_entry_ok_spec a a2 e h).2,
    fun hpad => ⟨?_, ?_⟩, fun hpad => ?_⟩
  · intro b rest hr hb
    rw [hne, paddingStep_eq_of_bad_byte a hpad (by rw [hr]; simp)
      (by rw [hr]; simp [hb])]
    rw [hr]
    simp
  · intro rest hr
    rw [hne, paddingStep_eq_of_newline a hpad (by rw [hr]; simp) (by rw [hr]; rfl)]
    rw [hr]
    simp
  · rw [hne, paddingStep_eq_of_padding_false a hpad]

/-- C7 witness: a reader with the padding flag set, whose next byte is
not a newline, fails with the padding error and is finished. -/
theorem claim7_witness :
    Archive.next_entry ⟨[7, 8], true, true, false⟩ =
      (⟨[8], true, true, true⟩,
        some (Except.error ⟨.invalidData, "Invalid padding byte"⟩)) :=
  ((claim7_padding ⟨[7, 8], true, true, false⟩ rfl rfl).2.1 rfl).1 7 [8] rfl
    (by decide)

/-- C1 (amended): for a header whose identifier is at most 16 encoded
bytes, contains no space, does not itself begin with the extension
marker bytes "#1/", has no trailing whitespace (Unicode scalar values
throughout), and whose numeric fields fit their fixed widths
(mtime < 10^12, uid and gid < 10^6, mode < 8^8, size < 10^10), and any
payload of exactly the declared size, `Builder::append` succeeds and
`Archive::next_entry` plus reading the `Entry` yields back a header
with identical identifier, mtime, uid, gid, mode and size, and identical
payload bytes. -/
theorem claim1_roundtrip_short (h : Header) (payload : List Nat)
    (hlen : (utf8Encode h.identifier).length ≤ 16)
    (hsp : h.identifier.contains 32 = false)
    (hext : ([35, 49, 47].isPrefixOf h.identifier) = false)
    (htrim : trimRight h.identifier = h.identifier)
    (hval : ∀ c ∈ h.identifier, validScalar c = true)
    (hm : h.mtime < 10 ^ 12) (hu : h.uid < 10 ^ 6) (hg : h.gid < 10 ^ 6)
    (hmo : h.mode < 8 ^ 8) (hs : h.size < 10 ^ 10)
    (hp : payload.length = h.size) :
    (Builder.new.append h payload).2 = Except.ok () ∧
    ∃ (a : Archive) (e : Entry),
      (Archive.new (Builder.new.append h payload).1.writer).next_entry =
        (a, some (Except.ok e)) ∧
      e.header = h ∧
      (Entry.read e h.size a.reader).1 = payload := by
  set pb := (if h.size % 2 = 1 then ([10] : List Nat) else []) with hpb
  have happ : Builder.new.append h payload =
      (⟨GLOBAL_HEADER ++ (Header.write h ++ (payload ++ pb)), true⟩, Except.ok ()) := by
    rw [hpb]
    by_cases hodd : h.size % 2 = 1
    · simp [Builder.append, Builder.new, hp, hodd, List.append_assoc]
    · simp [Builder.append, Builder.new, hp, hodd, List.append_assoc]
  rw [happ]
  refine ⟨rfl, ?_⟩
  have hread : Header.read (Header.write h ++ (payload ++ pb)) =
      Except.ok (some h, payload ++ pb) :=
    Header.read_write_short h (payload ++ pb) hlen hsp hext htrim hval hm hu hg hmo hs
  rw [Archive.next_entry_new]
  simp only [Archive.readHeaderStep, hread]
  refine ⟨_, _, rfl, rfl, ?_⟩
  simp only [Entry.read, Nat.min_self]
  exact List.take_left' hp

/-- C1 witness: the amended round-trip at the concrete header
("foo", size 2) with payload "ab". -/
theorem claim1_roundtrip_short_witness :
    (Builder.new.append ⟨[102, 111, 111], 0, 0, 0, 0, 2⟩ [97, 98]).2 = Except.ok () ∧
    ∃ (a : Archive) (e : Entry),
      (Archive.new
          (Builder.new.append ⟨[102, 111, 111], 0, 0, 0, 0, 2⟩ [97, 98]).1.writer).next_entry =
        (a, some (Except.ok e)) ∧
      e.header = ⟨[102, 111, 111], 0, 0, 0, 0, 2⟩ ∧
      (Entry.read e (Header.size ⟨[102, 111, 111], 0, 0, 0, 0, 2⟩) a.reader).1 =
        [97, 98] :=
  claim1_roundtrip_short ⟨[102, 111, 111], 0, 0, 0, 0, 2⟩ [97, 98]
    (by decide) (by decide) (by decide) (by decide) (by decide) (by decide)
    (by decide) (by decide) (by decide) (by decide) (by decide)

/-- C1 counterexample: the claim as stated fails for the identifier
"#1/0" (4 bytes, no space): the encoded record round-trips to a header
whose identifier is empty, not "#1/0", because the decoder mistakes the
inline identifier for an extension marker. -/
theorem claim1_counterexample :
    (utf8Encode [35, 49, 47, 48]).length ≤ 16 ∧
    ([35, 49, 47, 48] : List Nat).contains 32 = false ∧
    (Builder.new.append ⟨[35, 49, 47, 48], 0, 0, 0, 0, 0⟩ []).2 = Except.ok () ∧
    ((Archive.new
        (Builder.new.append ⟨[35, 49, 47, 48], 0, 0, 0, 0, 0⟩ []).1.writer).next_entry).2 =
      some (Except.ok ⟨⟨[], 0, 0, 0, 0, 0⟩, 0⟩) ∧
    ([] : List Nat) ≠ [35, 49, 47, 48] := by
  decide

/-- C2 (amended): for a header whose identifier is longer than 16
encoded bytes or contains a space, contains no NUL, consists of Unicode
scalar values, and whose numeric fields fit their fixed widths (mtime <
10^12, uid and gid < 10^6, mode < 8^8, padded name length < 10^13,
size + padded name length < 10^10), and a payload of the declared size:
encoding uses the extended "#1/" form, appending succeeds, and decoding
yields the original identifier and the original declared payload size
(not the on-wire size field). -/
theorem claim2_roundtrip_ext (h : Header) (payload : List Nat)
    (hcase : (16 < (utf8Encode h.identifier).length ||
      h.identifier.contains 32) = true)
    (hzero : 0 ∉ h.identifier)
    (hval : ∀ c ∈ h.identifier, validScalar c = true)
    (hm : h.mtime < 10 ^ 12) (hu : h.uid < 10 ^ 6) (hg : h.gid < 10 ^ 6)
    (hmo : h.mode < 8 ^ 8)
    (hpl : (utf8Encode h.identifier).length +
      (4 - (utf8Encode h.identifier).length % 4) % 4 < 10 ^ 13)
    (hsz : h.size + ((utf8Encode h.identifier).length +
      (4 - (utf8Encode h.identifier).length % 4) % 4) < 10 ^ 10)
    (hp : payload.length = h.size) :
    (Header.write h).take 3 = [35, 49, 47] ∧
    (Builder.new.append h payload).2 = Except.ok () ∧
    ∃ (a : Archive) (e : Entry),
      (Archive.new (Builder.new.append h payload).1.writer).next_entry =
        (a, some (Except.ok e)) ∧
      e.header.identifier = h.identifier ∧
      e.header.size = h.size ∧
      (Entry.read e h.size a.reader).1 = payload := by
  have hmarker : (Header.write h).take 3 = [35, 49, 47] := by
    simp only [Header.write, hcase, if_true]
    simp only [List.append_assoc, List.cons_append, List.nil_append]
    rfl
  refine ⟨hmarker, ?_⟩
  set pb := (if h.size % 2 = 1 then ([10] : List Nat) else []) with hpb
  have happ : Builder.new.append h payload =
      (⟨GLOBAL_HEADER ++ (Header.write h ++ (payload ++ pb)), true⟩, Except.ok ()) := by
    rw [hpb]
    by_cases hodd : h.size % 2 = 1
    · simp [Builder.append, Builder.new, hp, hodd, List.append_assoc]
    · simp [Builder.append, Builder.new, hp, hodd, List.append_assoc]
  rw [happ]
  refine ⟨rfl, ?_⟩
  have hread : Header.read (Header.write h ++ (payload ++ pb)) =
      Except.ok (some h, payload ++ pb) :=
    Header.read_write_ext h (payload ++ pb) hcase hzero hval hm hu hg hmo hpl hsz
  rw [Archive.next_entry_new]
  simp only [Archive.readHeaderStep, hread]
  refine ⟨_, _, rfl, rfl, rfl, ?_⟩
  simp only [Entry.read, Nat.min_self]
  exact List.take_left' hp

/-- C2 witness: the extended round-trip at a concrete 17-byte
identifier (17 letters "a") with a 1-byte payload. -/
theorem claim2_roundtrip_ext_witness :
    (Header.write ⟨List.replicate 17 97, 0, 0, 0, 0, 1⟩).take 3 = [35, 49, 47] ∧
    (Builder.new.append ⟨List.replicate 17 97, 0, 0, 0, 0, 1⟩ [98]).2 = Except.ok () ∧
    ∃ (a : Archive) (e : Entry),
      (Archive.new
          (Builder.new.append ⟨List.replicate 17 97, 0, 0, 0, 0, 1⟩ [98]).1.writer).next_entry =
        (a, some (Except.ok e)) ∧
      e.header.identifier = Header.identifier ⟨List.replicate 17 97, 0, 0, 0, 0, 1⟩ ∧
      e.header.size = Header.size ⟨List.replicate 17 97, 0, 0, 0, 0, 1⟩ ∧
      (Entry.read e (Header.size ⟨List.replicate 17 97, 0, 0, 0, 0, 1⟩) a.reader).1 =
        [98] :=
  claim2_roundtrip_ext ⟨List.replicate 17 97, 0, 0, 0, 0, 1⟩ [98]
    (by decide) (by decide) (by decide) (by decide) (by decide) (by decide)
    (by decide) (by decide) (by decide) (by decide)

/-- C2 counterexample: the claim as stated fails when a numeric field
overflows its fixed width: with a 17-byte identifier and uid equal to
1000000 (seven digits in a six-character field) the record layout
shifts, and decoding fails with an invalid-numeric-field error instead
of yielding the original identifier and size. -/
theorem claim2_counterexample :
    16 < (utf8Encode (List.replicate 17 97)).length ∧
    (0 ∉ List.replicate 17 97) ∧
    (Builder.new.append ⟨List.replicate 17 97, 0, 1000000, 0, 0, 0⟩ []).2 =
      Except.ok () ∧
    ((Archive.new
        (Builder.new.append ⟨List.replicate 17 97, 0, 1000000, 0, 0, 0⟩
          []).1.writer).next_entry).2 =
      some (Except.error ⟨.invalidData, "Invalid numeric field in entry header"⟩) := by
  decide

/-- C8: `Builder::append` fails with the size-mismatch error exactly
when the copied byte count differs from the declared size; on that
error the magic, the header record and the copied payload stay written
with no padding byte; on success one newline padding byte is appended
exactly when the payload length is odd (so an empty payload gets no
padding). -/
theorem claim8_append (b : Builder) (h : Header) (data : List Nat) :
    (((Builder.append b h data).2 =
        Except.error ⟨.invalidData, "Wrong file size"⟩) ↔ data.length ≠ h.size) ∧
    (data.length ≠ h.size →
      Builder.append b h data =
        (⟨(if b.started then b.writer else b.writer ++ GLOBAL_HEADER) ++
            Header.write h ++ data, true⟩,
          Except.error ⟨.invalidData, "Wrong file size"⟩)) ∧
    (data.length = h.size →
      Builder.append b h data =
        (⟨((if b.started then b.writer else b.writer ++ GLOBAL_HEADER) ++
            Header.write h ++ data) ++
            (if data.length % 2 = 1 then [10] else []), true⟩, Except.ok ())) := by
  refine ⟨?_, ?_, ?_⟩
  · by_cases hlen : data.length = h.size
    · by_cases hodd : h.size % 2 = 1 <;>
        simp [Builder.append, hlen, hodd]
    · simp [Builder.append, hlen]
  · intro hlen
    by_cases hst : b.started <;> simp [Builder.append, hlen, hst]
  · intro hlen
    by_cases hst : b.started <;> by_cases hodd : h.size % 2 = 1 <;>
      simp [Builder.append, hlen, hst, hodd]

/-- C8 witness: appending a 1-byte payload with a matching declared
size succeeds and emits one padding byte. -/
theorem claim8_witness :
    Builder.append ⟨[], false⟩ ⟨[97], 0, 0, 0, 0, 1⟩ [5] =
      (⟨(([] ++ GLOBAL_HEADER) ++ Header.write ⟨[97], 0, 0, 0, 0, 1⟩ ++ [5]) ++ [10],
        true⟩, Except.ok ()) := by
  have hc := (claim8_append ⟨[], false⟩ ⟨[97], 0, 0, 0, 0, 1⟩ [5]).2.2 rfl
  simpa using hc

/-- C9: `Header::read` reports no-more-entries at a clean EOF (zero
bytes), a premature-EOF error when 1 to 59 bytes remain, and otherwise
consumes exactly the 60-byte fixed record: on a successful non-extended
decode the remaining stream is the input minus exactly 60 bytes. -/
theorem claim9_header_eof (s : List Nat) :
    (s.length = 0 → Header.read s = Except.ok (none, s)) ∧
    (1 ≤ s.length → s.length < 60 →
      Header.read s = Except.error ⟨.unexpectedEof,
        "Unexpected EOF in the middle of archive entry header"⟩) ∧
    (60 ≤ s.length → usesExtMarker s = false →
      ∀ (hd : Header) (rest : List Nat), Header.read s = Except.ok (some hd, rest) →
        rest = s.drop 60) := by
  refine ⟨?_, ?_, ?_⟩
  · intro h0
    have hnil : s = [] := List.length_eq_zero.mp h0
    subst hnil
    rfl
  · intro h1 h2
    have c1 : ¬ s.length = 0 := by omega
    simp only [Header.read, c1, if_false, ite_false, if_pos h2]
  · intro h60 hmark hd rest heq
    have c1 : ¬ s.length = 0 := by omega
    have c2 : ¬ s.length < 60 := by omega
    simp only [Header.read, c1, c2, if_false, ite_false] at heq
    unfold usesExtMarker at hmark
    cases hdec : utf8Decode (slice (s.take 60) 0 16) with
    | none =>
      rw [hdec] at heq
      simp at heq
    | some cs =>
      rw [hdec] at heq hmark
      simp only at heq hmark
      cases hp1 : parse_number (slice (s.take 60) 16 28) 10 with
      | error e1 =>
        rw [hp1] at heq
        simp at heq
      | ok v1 =>
        rw [hp1] at heq
        cases hp2 : parse_number (slice (s.take 60) 28 34) 10 with
        | error e2 =>
          rw [hp2] at heq
          simp at heq
        | ok v2 =>
          rw [hp2] at heq
          cases hp3 : parse_number (slice (s.take 60) 34 40) 10 with
          | error e3 =>
            rw [hp3] at heq
            simp at heq
          | ok v3 =>
            rw [hp3] at heq
            cases hp4 : parse_number (slice (s.take 60) 40 48) 8 with
            | error e4 =>
              rw [hp4] at heq
              simp at heq
            | ok v4 =>
              rw [hp4] at heq
              cases hp5 : parse_number (slice (s.take 60) 48 58) 10 with
              | error e5 =>
                rw [hp5] at heq
                simp at heq
              | ok v5 =>
                rw [hp5] at heq
                simp only [hmark, Bool.false_eq_true, if_false, ite_false,
                  Except.ok.injEq, Prod.mk.injEq, Option.some.injEq] at heq
                exact heq.2.symm

/-- C9 witness: the zero-byte and the 3-byte streams. -/
theorem claim9_witness :
    Header.read [] = Except.ok (none, []) ∧
    Header.read [1, 2, 3] = Except.error ⟨.unexpectedEof,
      "Unexpected EOF in the middle of archive entry header"⟩ :=
  ⟨(claim9_header_eof []).1 rfl,
    (claim9_header_eof [1, 2, 3]).2.1 (by decide) (by decide)⟩

/-- C4: for a 60-byte record whose identifier field carries the "#1/"
marker with decimal length N and whose fixed fields parse: if the
parsed size is smaller than N the result is the malformed-header
(invalid-data) error; if fewer than N bytes remain it is the
premature-EOF error; otherwise exactly N further bytes are read, their
trailing NULs stripped to form the identifier, and the returned size is
the parsed size minus N. -/
theorem claim4_extended_read (s idChars : List Nat) (mt u g mo sz N : Nat)
    (h60 : 60 ≤ s.length)
    (hdec : utf8Decode (slice (s.take 60) 0 16) = some idChars)
    (hpre : ([35, 49, 47].isPrefixOf (trimRight idChars)) = true)
    (hp1 : parse_number (slice (s.take 60) 16 28) 10 = Except.ok mt)
    (hp2 : parse_number (slice (s.take 60) 28 34) 10 = Except.ok u)
    (hp3 : parse_number (slice (s.take 60) 34 40) 10 = Except.ok g)
    (hp4 : parse_number (slice (s.take 60) 40 48) 8 = Except.ok mo)
    (hp5 : parse_number (slice (s.take 60) 48 58) 10 = Except.ok sz)
    (hpN : parse_number (slice (s.take 60) 3 16) 10 = Except.ok N) :
    (sz < N → Header.read s = Except.error ⟨.invalidData,
      "Entry size smaller than extended entry identifier length"⟩) ∧
    (N ≤ sz → (s.drop 60).length < N →
      Header.read s = Except.error ⟨.unexpectedEof,
        "Unexpected EOF in the middle of extended entry identifier"⟩) ∧
    (N ≤ sz → ¬ (s.drop 60).length < N →
      ∀ id2, utf8Decode (stripTrailingZeros ((s.drop 60).take N)) = some id2 →
        Header.read s = Except.ok
          (some ⟨id2, mt, u % 2 ^ 32, g % 2 ^ 32, mo % 2 ^ 32, sz - N⟩,
            (s.drop 60).drop N)) := by
  have c1 : ¬ s.length = 0 := by omega
  have c2 : ¬ s.length < 60 := by omega
  refine ⟨?_, ?_, ?_⟩
  · intro hslt
    simp only [Header.read, c1, c2, if_false, ite_false, hdec, hp1, hp2, hp3, hp4,
      hp5, hpre, hpN, if_true, ite_true, if_pos hslt]
  · intro hNle hlen
    simp only [Header.read, c1, c2, if_false, ite_false, hdec, hp1, hp2, hp3, hp4,
      hp5, hpre, hpN, if_true, ite_true, if_neg (Nat.not_lt.mpr hNle), if_pos hlen]
  · intro hNle hlen id2 hid2
    simp only [Header.read, c1, c2, if_false, ite_false, hdec, hp1, hp2, hp3, hp4,
      hp5, hpre, hpN, if_true, ite_true, if_neg (Nat.not_lt.mpr hNle), if_neg hlen,
      hid2]

/-- C4 witness: a concrete extended record "#1/4" with declared size 4
and name bytes "ab" padded with two NULs decodes to identifier "ab" and
size 0. -/
theorem claim4_witness :
    Header.read ([35, 49, 47, 52] ++ List.replicate 12 32 ++
        ([48] ++ List.replicate 11 32) ++ ([48] ++ List.replicate 5 32) ++
        ([48] ++ List.replicate 5 32) ++ ([48] ++ List.replicate 7 32) ++
        ([52] ++ List.replicate 9 32) ++ [96, 10] ++ [97, 98, 0, 0]) =
      Except.ok (some ⟨[97, 98], 0, 0, 0, 0, 0⟩, []) :=
  (claim4_extended_read _ ([35, 49, 47, 52] ++ List.replicate 12 32) 0 0 0 0 4 4
    (by decide) (by decide) (by decide) (by decide) (by decide) (by decide)
    (by decide) (by decide) (by decide)).2.2 (by decide) (by decide)
    [97, 98] (by decide)

/-- C10: `Header::write` validates nothing — every header, however
pathological, is written in full (at least the 60 fixed bytes, with no
error possible on an error-free sink) — even though the emitted bytes
need not decode back to an equivalent header: shown concretely for an
identifier with a trailing newline, an identifier that itself starts
with "#1/", and an mtime whose rendering overflows its 12-byte field. -/
theorem claim10_write_no_validation :
    (∀ h : Header, 60 ≤ (Header.write h).length) ∧
    Header.read (Header.write ⟨[97, 10], 0, 0, 0, 0, 0⟩) ≠
      Except.ok (some ⟨[97, 10], 0, 0, 0, 0, 0⟩, []) ∧
    Header.read (Header.write ⟨[35, 49, 47, 49, 50], 0, 0, 0, 0, 0⟩) ≠
      Except.ok (some ⟨[35, 49, 47, 49, 50], 0, 0, 0, 0, 0⟩, []) ∧
    Header.read (Header.write ⟨[97], 10 ^ 12, 0, 0, 0, 0⟩) ≠
      Except.ok (some ⟨[97], 10 ^ 12, 0, 0, 0, 0⟩, []) := by
  refine ⟨?_, by decide, by decide, by decide⟩
  intro h
  simp only [Header.write]
  split_ifs <;>
    simp [fmtLeft, List.length_append] <;>
    omega

end ArLib
